import Mathlib

/-!
Shallow embedding of the replication-lag core of the
ansible-ds389-repl-monitoring repository.

The Python sources embedded here are:
* `roles/ds389_repl_monitoring/library/ds389_log_parser.py`
  (class `DSLogParserFallback`: timestamp parsing, suffix matching,
  the per-(conn,op) operation correlator, end-of-file flush, duration),
* `roles/ds389_repl_monitoring/library/ds389_logs_plot.py`
  (class `ReplicationLogAnalyzerFallback`: record filtering and hop-lag
  computation),
* `roles/ds389_replication_monitoring/library/ds389_merge_logs.py`
  (`merge_jsons` / `split_json`).

Python `dict`s are modelled as insertion-ordered association lists
(`PyDict`), Python `float` time arithmetic as `Rat`, Python exceptions as
an explicit `Except PyErr` result, and `datetime` objects as an explicit
structure of calendar fields plus awareness/offset.
-/

namespace DS389

/-! ## Python dict model: insertion-ordered association lists -/

/-- A Python `dict`: keys in insertion order, no duplicate keys when built
through `dset`. -/
abbrev PyDict (K V : Type) := List (K × V)

/-- `d.get(k)` / `d[k]` lookup: first (and only) binding of `k`. -/
def dget? {K V : Type} [DecidableEq K] : PyDict K V → K → Option V
  | [], _ => none
  | (k', v) :: rest, k => if k' = k then some v else dget? rest k

/-- `k in d` membership test. -/
def dmem {K V : Type} [DecidableEq K] (d : PyDict K V) (k : K) : Bool :=
  (dget? d k).isSome

/-- `d[k] = v` assignment: overwrite in place if present, else append
(Python dicts keep the original insertion position on overwrite). -/
def dset {K V : Type} [DecidableEq K] : PyDict K V → K → V → PyDict K V
  | [], k, v => [(k, v)]
  | (k', v') :: rest, k, v =>
      if k' = k then (k, v) :: rest else (k', v') :: dset rest k v

/-- `d.pop(k, None)`: remove the binding of `k` if present. -/
def ddel {K V : Type} [DecidableEq K] : PyDict K V → K → PyDict K V
  | [], _ => []
  | (k', v') :: rest, k =>
      if k' = k then rest else (k', v') :: ddel rest k

/-! ## Decimal rendering and parsing (Python `str(int)` and `int(str)`) -/

/-- The character for one decimal digit. -/
def digitChar : Nat → Char
  | 0 => '0' | 1 => '1' | 2 => '2' | 3 => '3' | 4 => '4'
  | 5 => '5' | 6 => '6' | 7 => '7' | 8 => '8' | 9 => '9'
  | _ => '?'

/-- The value of one decimal digit character. -/
def charVal : Char → Nat := fun c => c.toNat - 48

/-- Numeric value of a most-significant-first digit string. -/
def digitsToNat (cs : List Char) : Nat :=
  cs.foldl (fun a c => a * 10 + charVal c) 0

/-- Little-endian decimal digits of `n`, driven by a fuel parameter large
enough (`n` itself suffices) to make the recursion structural. -/
def natDigitsRev : Nat → Nat → List Nat
  | 0, _ => []
  | fuel + 1, n => if n = 0 then [] else n % 10 :: natDigitsRev fuel (n / 10)

/-- Python `str(n)` for a natural number. -/
def natToStr (n : Nat) : String :=
  if n = 0 then "0" else ⟨((natDigitsRev n n).map digitChar).reverse⟩

/-- Python `int(s)` restricted to optionally-signed decimal literals;
other strings raise `ValueError`, modelled as `none`. -/
def strToInt? (s : String) : Option Int :=
  match s.data with
  | [] => none
  | c :: rest =>
      if c = '-' then
        if rest ≠ [] ∧ rest.all Char.isDigit then some (-(digitsToNat rest : Int))
        else none
      else
        if (c :: rest).all Char.isDigit then some ((digitsToNat (c :: rest) : Nat) : Int)
        else none

/-! ## Python exceptions -/

/-- The Python exception classes reachable in the embedded code. -/
inductive PyErr
  | valueError (msg : String)
  | keyError (key : String)
  | typeError
  | indexError
deriving DecidableEq, Repr

/-! ## Calendar arithmetic (the `datetime` module) -/

/-- Leap-year test of the proleptic Gregorian calendar. -/
def isLeap (y : Nat) : Bool :=
  (y % 4 == 0 && y % 100 != 0) || y % 400 == 0

/-- Number of days in a month. -/
def daysInMonth (y m : Nat) : Nat :=
  if m = 2 then (if isLeap y then 29 else 28)
  else if m = 4 ∨ m = 6 ∨ m = 9 ∨ m = 11 then 30
  else 31

/-- Days since 1970-01-01 of a civil date (standard days-from-civil
algorithm, valid with truncating integer division). -/
def daysFromCivil (y m d : Int) : Int :=
  let y' := if m ≤ 2 then y - 1 else y
  let era := (if 0 ≤ y' then y' else y' - 399) / 400
  let yoe := y' - era * 400
  let mp := (m + 9) % 12
  let doy := (153 * mp + 2) / 5 + d - 1
  let doe := yoe * 365 + yoe / 4 - yoe / 100 + doy
  era * 146097 + doe - 719468

/-- A Python `datetime.datetime` value: calendar fields, microseconds, and
either a fixed UTC offset (`aware = true`) or no timezone info. -/
structure PyDateTime where
  year : Nat
  month : Nat
  day : Nat
  hour : Nat
  minute : Nat
  second : Nat
  microsecond : Nat
  aware : Bool
  offsetMinutes : Int
deriving DecidableEq, Repr

/-- Wall-clock microseconds since the epoch, ignoring the offset. -/
def wallMicros (dt : PyDateTime) : Int :=
  (daysFromCivil dt.year dt.month dt.day * 86400
    + dt.hour * 3600 + dt.minute * 60 + dt.second) * 1000000
    + dt.microsecond

/-- Absolute (UTC) microseconds since the epoch of an aware datetime. -/
def absMicros (dt : PyDateTime) : Int :=
  wallMicros dt - dt.offsetMinutes * 60 * 1000000

/-- The value Python compares / subtracts: absolute position for aware
datetimes, wall position for naive ones (mixing the two raises). -/
def cmpMicros (dt : PyDateTime) : Int :=
  if dt.aware then absMicros dt else wallMicros dt

/-- `a < b` on datetimes: raises `TypeError` when one side is aware and
the other naive. -/
def dtLt (a b : PyDateTime) : Except PyErr Bool :=
  if a.aware = b.aware then .ok (decide (cmpMicros a < cmpMicros b))
  else .error .typeError

end DS389

namespace DS389

/-! ## Character-level parsing helpers -/

/-- Consume one expected character. -/
def expectChar (c : Char) : List Char → Option (List Char)
  | x :: xs => if x = c then some xs else none
  | [] => none

/-- Consume exactly `n` decimal digits, returning them. -/
def exactDigits : Nat → List Char → Option (List Char × List Char)
  | 0, cs => some ([], cs)
  | n + 1, c :: cs =>
      if c.isDigit then
        (exactDigits n cs).map (fun p => (c :: p.1, p.2))
      else none
  | _ + 1, [] => none

/-- `\d*`: a maximal (possibly empty) digit run. -/
def spanDigits (cs : List Char) : List Char × List Char :=
  (cs.takeWhile Char.isDigit, cs.dropWhile Char.isDigit)

/-- `\w` of the source regex, restricted to ASCII as produced by the logs. -/
def isWordChar (c : Char) : Bool :=
  c.isAlpha || c.isDigit || c = '_'

/-- `\s` of the source regex, restricted to the ASCII whitespace forms. -/
def isSpaceChar (c : Char) : Bool :=
  c = ' ' || c = '\t' || c = '\n' || c = '\r'

/-! ## `datetime.fromisoformat`

Modelled for the subset of ISO strings this pipeline produces
(`str(datetime)` of aware or naive datetimes):
`YYYY-MM-DD[ |T]HH:MM:SS[.f{1,6}][±HH:MM]`, where the whole string must be
consumed.  Invalid shapes or field values raise `ValueError`. -/

/-- Parse the optional `±HH:MM` offset tail of an ISO string. -/
def parseIsoOffset : List Char → Option (Bool × Option (Int))
  | [] => some (true, none)
  | c :: cs =>
      if c = '+' ∨ c = '-' then
        match exactDigits 2 cs with
        | some (hh, cs) =>
          match expectChar ':' cs with
          | some cs =>
            match exactDigits 2 cs with
            | some (mm, []) =>
              let v : Int := (digitsToNat hh * 60 + digitsToNat mm : Nat)
              if digitsToNat hh ≤ 23 ∧ digitsToNat mm ≤ 59 then
                some (true, some (if c = '-' then -v else v))
              else none
            | _ => none
          | none => none
        | none => none
      else none

/-- Parse the optional fractional part `.f{1,6}` of an ISO string,
returning the microsecond value and the rest. -/
def parseIsoFrac : List Char → Option (Nat × List Char)
  | '.' :: cs =>
      let (ds, rest) := spanDigits cs
      if 1 ≤ ds.length ∧ ds.length ≤ 6 then
        some (digitsToNat ds * 10 ^ (6 - ds.length), rest)
      else none
  | cs => some (0, cs)

/-- `datetime.fromisoformat` on the subset of ISO strings the pipeline
emits.  Returns an aware datetime when an offset is present. -/
def fromisoformat (s : String) : Except PyErr PyDateTime :=
  let fail : Except PyErr PyDateTime :=
    .error (.valueError ("Invalid isoformat string: " ++ s))
  match exactDigits 4 s.data with
  | none => fail
  | some (ys, cs) =>
    match expectChar '-' cs with
    | none => fail
    | some cs =>
      match exactDigits 2 cs with
      | none => fail
      | some (ms, cs) =>
        match expectChar '-' cs with
        | none => fail
        | some cs =>
          match exactDigits 2 cs with
          | none => fail
          | some (ds, cs) =>
            let y := digitsToNat ys
            let mo := digitsToNat ms
            let d := digitsToNat ds
            if ¬ (1 ≤ mo ∧ mo ≤ 12 ∧ 1 ≤ d ∧ d ≤ daysInMonth y mo) then fail
            else
              match cs with
              | [] =>
                .ok ⟨y, mo, d, 0, 0, 0, 0, false, 0⟩
              | sep :: cs =>
                if ¬ (sep = 'T' ∨ sep = ' ') then fail
                else
                  match exactDigits 2 cs with
                  | none => fail
                  | some (hs, cs) =>
                    match expectChar ':' cs with
                    | none => fail
                    | some cs =>
                      match exactDigits 2 cs with
                      | none => fail
                      | some (mins, cs) =>
                        match expectChar ':' cs with
                        | none => fail
                        | some cs =>
                          match exactDigits 2 cs with
                          | none => fail
                          | some (ss, cs) =>
                            let h := digitsToNat hs
                            let mi := digitsToNat mins
                            let sec := digitsToNat ss
                            if ¬ (h ≤ 23 ∧ mi ≤ 59 ∧ sec ≤ 59) then fail
                            else
                              match parseIsoFrac cs with
                              | none => fail
                              | some (micro, cs) =>
                                match parseIsoOffset cs with
                                | none => fail
                                | some (_, offs) =>
                                  match offs with
                                  | none =>
                                    .ok ⟨y, mo, d, h, mi, sec, micro, false, 0⟩
                                  | some off =>
                                    .ok ⟨y, mo, d, h, mi, sec, micro, true, off⟩

/-! ## The access-log timestamp regex

`REGEX_TIMESTAMP` of `DSLogParserFallback`:
`\[(?P<day>\d*)\/(?P<month>\w*)\/(?P<year>\d*):(?P<hour>\d*):(?P<minute>\d*):(?P<second>\d*)(\.(?P<nanosecond>\d*))+\s(?P<tz>[\+\-]\d{2})(?P<tz_minute>\d{2})`
matched with `.match` (anchored at the start, trailing text allowed).
All character classes here are deterministic against their following
literal delimiters, so a greedy scan is exactly the regex semantics. -/

/-- The named capture groups of `REGEX_TIMESTAMP`. -/
structure TsGroups where
  day : List Char
  month : List Char
  year : List Char
  hour : List Char
  minute : List Char
  second : List Char
  nanosecond : List Char
  tzNeg : Bool
  tzHour : List Char
  tzMinute : List Char
deriving DecidableEq, Repr

/-- `(\.(?P<nanosecond>\d*))+`: one or more `.`-digit groups; the group
captures the digits of the last repetition.  The repetitions consume the
maximal `[.0-9]*` run starting with `'.'`. -/
def matchFrac (cs : List Char) : Option (List Char × List Char) :=
  match cs with
  | '.' :: _ =>
      let run := cs.takeWhile (fun c => c = '.' || c.isDigit)
      let rest := cs.dropWhile (fun c => c = '.' || c.isDigit)
      some ((run.reverse.takeWhile Char.isDigit).reverse, rest)
  | _ => none

/-- `REGEX_TIMESTAMP.match ts`: the captured groups, or `none` when the
line does not start with a recognizable timestamp. -/
def matchTimestamp (s : String) : Option TsGroups :=
  match expectChar '[' s.data with
  | none => none
  | some cs =>
    let (day, cs) := spanDigits cs
    match expectChar '/' cs with
    | none => none
    | some cs =>
      let mon := cs.takeWhile isWordChar
      let cs := cs.dropWhile isWordChar
      match expectChar '/' cs with
      | none => none
      | some cs =>
        let (year, cs) := spanDigits cs
        match expectChar ':' cs with
        | none => none
        | some cs =>
          let (hour, cs) := spanDigits cs
          match expectChar ':' cs with
          | none => none
          | some cs =>
            let (minute, cs) := spanDigits cs
            match expectChar ':' cs with
            | none => none
            | some cs =>
              let (second, cs) := spanDigits cs
              match matchFrac cs with
              | none => none
              | some (nano, cs) =>
                match cs with
                | [] => none
                | sp :: cs =>
                  if ¬ isSpaceChar sp then none
                  else
                    match cs with
                    | [] => none
                    | sgn :: cs =>
                      if ¬ (sgn = '+' ∨ sgn = '-') then none
                      else
                        match exactDigits 2 cs with
                        | none => none
                        | some (tzh, cs) =>
                          match exactDigits 2 cs with
                          | none => none
                          | some (tzm, _) =>
                            some ⟨day, mon, year, hour, minute, second,
                                  nano, sgn = '-', tzh, tzm⟩

end DS389

namespace DS389

/-! ## `DSLogParserFallback.parse_timestamp`

The source re-matches `REGEX_TIMESTAMP`, maps the month abbreviation
through `MONTH_LOOKUP` (a plain dict indexing — an unknown month raises
`KeyError`), interpolates the groups into an ISO string handed to
`datetime.fromisoformat` (which validates digit counts and field ranges),
and finally truncates the fraction to microseconds with
`int(nanosecond) // 1000` via `datetime.replace` (which raises
`ValueError` when the quotient exceeds 999999). -/

/-- `MONTH_LOOKUP`, with the numeric value of the two-digit month string
the source interpolates into the ISO form. -/
def MONTH_LOOKUP : PyDict String Nat :=
  [("Jan", 1), ("Feb", 2), ("Mar", 3), ("Apr", 4),
   ("May", 5), ("Jun", 6), ("Jul", 7), ("Aug", 8),
   ("Sep", 9), ("Oct", 10), ("Nov", 11), ("Dec", 12)]

/-- The validation `datetime.fromisoformat` applies to the interpolated
ISO string `{year}-{month}-{day}T{hour}:{minute}:{second}{tz}:{tzm}`:
exact digit counts and in-range field values, including `datetime`'s
year range `MINYEAR = 1` (the four-digit count already bounds the year
by `MAXYEAR = 9999`). -/
def isoGroupsValid (g : TsGroups) (monthNum : Nat) : Bool :=
  g.year.length == 4 && g.day.length == 2 && g.hour.length == 2 &&
  g.minute.length == 2 && g.second.length == 2 &&
  1 ≤ digitsToNat g.year &&
  1 ≤ digitsToNat g.day && digitsToNat g.day ≤ daysInMonth (digitsToNat g.year) monthNum &&
  digitsToNat g.hour ≤ 23 && digitsToNat g.minute ≤ 59 && digitsToNat g.second ≤ 59 &&
  digitsToNat g.tzHour ≤ 23 && digitsToNat g.tzMinute ≤ 59

/-- The signed offset in minutes of the matched `±HHMM` groups. -/
def tzOffsetOf (g : TsGroups) : Int :=
  let v : Int := (digitsToNat g.tzHour * 60 + digitsToNat g.tzMinute : Nat)
  if g.tzNeg then -v else v

/-- `DSLogParserFallback.parse_timestamp` on a string argument.  The final
branch is the `datetime.replace(microsecond=...)` call: an empty (falsy)
fraction capture skips it, and a quotient beyond 999999 raises. -/
def parse_timestamp (ts : String) : Except PyErr PyDateTime :=
  match matchTimestamp ts with
  | none => .error (.valueError ("Invalid timestamp format: " ++ ts))
  | some g =>
    match dget? MONTH_LOOKUP ⟨g.month⟩ with
    | none => .error (.keyError (⟨g.month⟩ : String))
    | some monthNum =>
      if ¬ isoGroupsValid g monthNum then
        .error (.valueError "Invalid isoformat string")
      else if g.nanosecond = [] then
        .ok ⟨digitsToNat g.year, monthNum, digitsToNat g.day,
             digitsToNat g.hour, digitsToNat g.minute, digitsToNat g.second,
             0, true, tzOffsetOf g⟩
      else if digitsToNat g.nanosecond / 1000 ≤ 999999 then
        .ok ⟨digitsToNat g.year, monthNum, digitsToNat g.day,
             digitsToNat g.hour, digitsToNat g.minute, digitsToNat g.second,
             digitsToNat g.nanosecond / 1000, true, tzOffsetOf g⟩
      else .error (.valueError "microsecond must be in 0..999999")

/-! ## `DSLogParserFallback._calculate_duration` -/

/-- A value handed to `_calculate_duration`: the source stores either the
raw timestamp string or an already-parsed datetime (or `None`). -/
inductive PyTime
  | ofStr (s : String)
  | ofDt (dt : PyDateTime)
  | noneVal
deriving DecidableEq, Repr

/-- The `isinstance(x, str)` branch of `_calculate_duration`: strings are
parsed, anything else is passed through to the subtraction. -/
def asDatetime : PyTime → Except PyErr (Option PyDateTime)
  | .ofStr s => (parse_timestamp s).map some
  | .ofDt dt => .ok (some dt)
  | .noneVal => .ok none

/-- `(et - st).total_seconds()`: raises `TypeError` on `None` operands or
on mixing naive and aware datetimes. -/
def dtSubSeconds : Option PyDateTime → Option PyDateTime → Except PyErr Rat
  | some et, some st =>
      if et.aware = st.aware then
        .ok (((cmpMicros et - cmpMicros st : Int) : Rat) / 1000000)
      else .error .typeError
  | _, _ => .error .typeError

/-- `DSLogParserFallback._calculate_duration`: the body runs under
`except (ValueError, TypeError): return 0.0`; any other exception
(notably `KeyError` from the month lookup) propagates. -/
def calculate_duration (start stop : PyTime) : Except PyErr Rat :=
  let body : Except PyErr Rat := do
    let st ← asDatetime start
    let et ← asDatetime stop
    dtSubSeconds et st
  match body with
  | .ok v => .ok v
  | .error (.valueError _) => .ok 0
  | .error .typeError => .ok 0
  | .error e => .error e

/-! ## DN normalization and suffix matching -/

/-- `str.lower` on the ASCII data the access logs carry. -/
def lowerChar (c : Char) : Char :=
  if 'A' ≤ c ∧ c ≤ 'Z' then Char.ofNat (c.toNat + 32) else c

/-- Split a character list at every occurrence of a separator. -/
def splitOnChar (sep : Char) : List Char → List (List Char)
  | [] => [[]]
  | c :: cs =>
      if c = sep then [] :: splitOnChar sep cs
      else
        match splitOnChar sep cs with
        | [] => [[c]]
        | g :: gs => (c :: g) :: gs

/-- Strip the surrounding spaces of one DN component. -/
def trimChars (cs : List Char) : List Char :=
  ((cs.dropWhile (fun c => c = ' ')).reverse.dropWhile (fun c => c = ' ')).reverse

/-- Rebuild a DN from its components with bare comma separators. -/
def joinComma : List (List Char) → List Char
  | [] => []
  | [g] => g
  | g :: gs => g ++ ',' :: joinComma gs

/-- Whether `pre` is an initial run of `s`. -/
def isPrefChars : List Char → List Char → Bool
  | [], _ => true
  | _ :: _, [] => false
  | a :: as, b :: bs => a = b && isPrefChars as bs

/-- `str.endswith` on the underlying characters. -/
def endsWithChars (s sfx : List Char) : Bool :=
  isPrefChars sfx.reverse s.reverse

/-- Modelled from the external `python-ldap` library: `normalizeDN` lowers
the DN and rebuilds it from `ldap.explode_dn`, which splits on the
(unescaped) comma separators and drops the whitespace around each
component; the empty DN short-circuits to `""`. -/
def normalizeDN (dn : String) : String :=
  if dn.isEmpty then ""
  else ⟨joinComma (((splitOnChar ',' (dn.data.map lowerChar))).map trimChars)⟩

/-- Stable insertion of a string into a list sorted by descending length
(later elements of equal length stay behind, as in Python's stable
`sorted`). -/
def insertByLenDesc (a : String) : List String → List String
  | [] => [a]
  | b :: bs =>
      if a.length < b.length then b :: insertByLenDesc a bs
      else a :: b :: bs

/-- Stable sort by descending length: `sorted(key=len, reverse=True)`. -/
def sortByLenDesc : List String → List String
  | [] => []
  | x :: xs => insertByLenDesc x (sortByLenDesc xs)

/-- `DSLogParserFallback._normalize_suffixes`. -/
def normalize_suffixes (suffixes : List String) : List String :=
  sortByLenDesc ((suffixes.filter (fun s => ¬ s.isEmpty)).map normalizeDN)

/-- `DSLogParserFallback._match_suffix`, reading the already-normalized,
length-sorted suffix list the constructor stored. -/
def match_suffix (sfxs : List String) (dn : String) : Option String :=
  if dn.isEmpty then none
  else sfxs.find? (fun sfx => endsWithChars (normalizeDN dn).data sfx.data)

end DS389

namespace DS389

/-! ## The operation correlator (`DSLogParserFallback`)

`self.pending_ops` maps `(conn, op)` to a plain dict whose values are the
timestamp strings, the ids, and the optional suffix/target-DN/CSN fields;
key *presence* and value `None` are distinct states, so the per-operation
data is itself modelled as a `PyDict String PyVal`. -/

/-- A value stored in a pending-operation dict. -/
inductive PyVal
  | vnone
  | vstr (s : String)
deriving DecidableEq, Repr

/-- The per-operation mutable dict. -/
abbrev OpData := PyDict String PyVal

/-- The pending-operations table, keyed by `(conn, op)`. -/
abbrev PendingOps := PyDict (String × String) OpData

/-- `DSLogParser.ParserResult` as handed to `_process_operation`:
the ordered bare keywords, the key→value map, and the matched timestamp
prefix (a string for every line produced by `parse_line`). -/
structure ParserResult where
  keywords : List String
  vars : PyDict String String
  timestamp : String
deriving DecidableEq, Repr

/-- The parser configuration fields `_process_operation` and
`_create_record` consult.  `suffixes` is `self._suffixes` (already
normalized and length-sorted by the constructor); the time bounds are
already timezone-aware, as `__init__` guarantees. -/
structure ParserCfg where
  suffixes : List String
  tzOffsetMinutes : Int
  startTime : Option PyDateTime
  endTime : Option PyDateTime
deriving DecidableEq, Repr

/-- `_ensure_timezone_aware`: naive datetimes get the configured offset
attached (`replace(tzinfo=...)`, wall fields unchanged); aware datetimes
are converted with `astimezone`, which keeps the absolute instant — and
only the absolute instant feeds the comparisons below, so the conversion
is modelled as the identity. -/
def ensure_timezone_aware (cfg : ParserCfg) (dt : PyDateTime) : PyDateTime :=
  if dt.aware then dt
  else { dt with aware := true, offsetMinutes := cfg.tzOffsetMinutes }

/-- `_is_in_time_range` (total here because the configured bounds are
aware, so the datetime comparisons cannot raise). -/
def is_in_time_range (cfg : ParserCfg) (dt : PyDateTime) : Bool :=
  let a := ensure_timezone_aware cfg dt
  let afterStart :=
    match cfg.startTime with
    | none => true
    | some s => decide (absMicros s ≤ absMicros a)
  let beforeEnd :=
    match cfg.endTime with
    | none => true
    | some e => decide (absMicros a ≤ absMicros e)
  afterStart && beforeEnd

/-- Truthiness of `record` fields in `all([timestamp, conn, op])`:
datetimes are always truthy, strings are truthy when nonempty. -/
def truthyStr : Option String → Bool
  | none => false
  | some s => ¬ s.isEmpty

/-- An emitted operation record (the dict `_create_record` builds). -/
structure OpRecord where
  timestamp : PyDateTime
  conn : String
  op : String
  csn : Option String
  suffix : Option String
  target_dn : Option String
  duration : Rat
  etime : Option String
deriving DecidableEq, Repr

/-- Read an optional-string field out of an `OpData` dict:
a missing key and a stored `None` both read back as `None` under `.get`. -/
def odGetStr (od : OpData) (k : String) : Option String :=
  match dget? od k with
  | some (.vstr s) => some s
  | _ => none

/-- An `OpData` value as a `_calculate_duration` operand. -/
def pyTimeOfVal : Option PyVal → PyTime
  | some (.vstr s) => .ofStr s
  | _ => .noneVal

/-- `_create_record(result, op_data)` — the terminal-line path.  The whole
body runs under `except Exception: return None`, so every raised error
collapses to `none`. -/
def create_record_active (cfg : ParserCfg) (r : ParserResult) (od : OpData) :
    Option OpRecord :=
  let body : Except PyErr (Option OpRecord) := do
    let ts ← parse_timestamp r.timestamp
    let conn := dget? r.vars "conn"
    let op := dget? r.vars "op"
    let csn := dget? r.vars "csn"
    let etime := dget? r.vars "etime"
    let startVal ←
      match dget? od "start_time" with
      | some v => Except.ok v
      | none => Except.error (.keyError "start_time")
    let dur ← calculate_duration (pyTimeOfVal (some startVal)) (.ofStr r.timestamp)
    if ¬ (truthyStr conn ∧ truthyStr op) then
      pure none
    else
      let rec_ : OpRecord :=
        ⟨ts, conn.getD "", op.getD "", csn,
         odGetStr od "suffix", odGetStr od "target_dn", dur, etime⟩
      if ¬ is_in_time_range cfg ts then pure none else pure (some rec_)
  match body with
  | .ok v => v
  | .error _ => none

/-- `_create_record(op_data=...)` — the end-of-file flush path.
`op_data.get('last_time', op_data['start_time'])` evaluates the default
eagerly, so a missing `start_time` raises even when `last_time` exists. -/
def create_record_remaining (cfg : ParserCfg) (od : OpData) : Option OpRecord :=
  let body : Except PyErr (Option OpRecord) := do
    let startVal ←
      match dget? od "start_time" with
      | some v => Except.ok v
      | none => Except.error (.keyError "start_time")
    let tsVal := (dget? od "last_time").getD startVal
    let ts ←
      match tsVal with
      | .vstr s => parse_timestamp s
      | .vnone => Except.error .typeError
    let conn := odGetStr od "conn"
    let op := odGetStr od "op"
    let csn := odGetStr od "csn"
    let dur ← calculate_duration (pyTimeOfVal (some startVal)) (.ofDt ts)
    if ¬ (truthyStr conn ∧ truthyStr op) then
      pure none
    else
      let rec_ : OpRecord :=
        ⟨ts, conn.getD "", op.getD "", csn,
         odGetStr od "suffix", odGetStr od "target_dn", dur, none⟩
      if ¬ is_in_time_range cfg ts then pure none else pure (some rec_)
  match body with
  | .ok v => v
  | .error _ => none

/-- The completion keywords of `_process_operation`. -/
def terminalKeywords : List String := ["RESULT", "ABANDON", "DISCONNECT"]

/-- Whether the tokenized line carries a completion keyword. -/
def hasTerminalKeyword (r : ParserResult) : Bool :=
  terminalKeywords.any (fun kw => r.keywords.contains kw)

/-- The fresh pending dict `_process_operation` creates on the first line
referencing a `(conn, op)` pair. -/
def newOpData (ts : String) (conn op : String) : OpData :=
  [("start_time", .vstr ts), ("last_time", .vstr ts),
   ("conn", .vstr conn), ("op", .vstr op),
   ("suffix", .vnone), ("target_dn", .vnone)]

/-- `DSLogParserFallback._process_operation`: returns the emitted record
(if any) and the updated pending-operations table. -/
def process_operation (cfg : ParserCfg) (pending : PendingOps)
    (r : ParserResult) : Option OpRecord × PendingOps :=
  match dget? r.vars "conn", dget? r.vars "op" with
  | some conn, some op =>
    if conn.isEmpty ∨ op.isEmpty then (none, pending)
    else
      let key := (conn, op)
      if hasTerminalKeyword r then
        match dget? pending key with
        | some od => (create_record_active cfg r od, ddel pending key)
        | none => (none, pending)
      else
        let pending :=
          match dget? pending key with
          | none => dset pending key (newOpData r.timestamp conn op)
          | some od => dset pending key (dset od "last_time" (.vstr r.timestamp))
        let pending :=
          match dget? r.vars "dn" with
          | none => pending
          | some dn =>
            match match_suffix cfg.suffixes dn with
            | none => pending
            | some sfx =>
              let od := (dget? pending key).getD []
              dset pending key
                (dset (dset od "suffix" (.vstr sfx)) "target_dn" (.vstr dn))
        let pending :=
          match dget? r.vars "csn" with
          | none => pending
          | some csn =>
            let od := (dget? pending key).getD []
            dset pending key (dset od "csn" (.vstr csn))
        (none, pending)
  | _, _ => (none, pending)

/-- The per-entry body of `_process_remaining_ops`: flush the pending dict
when both the `csn` and the `suffix` *keys* are present; `_create_record`
absorbs its own errors. -/
def flush_pending (cfg : ParserCfg) (od : OpData) : Option OpRecord :=
  if dmem od "csn" && dmem od "suffix" then create_record_remaining cfg od
  else none

/-- `DSLogParserFallback._process_remaining_ops`: the records yielded at
end of file, and the pending table afterwards (each iteration pops its
pair, so the table drains completely). -/
def process_remaining_ops (cfg : ParserCfg) (pending : PendingOps) :
    List OpRecord × PendingOps :=
  (pending.filterMap (fun kv => flush_pending cfg kv.2), [])

end DS389

namespace DS389

/-! ## The filter engine and hop-lag calculator
(`ReplicationLogAnalyzerFallback`) -/

/-- A key of a per-CSN server map: the integer replica indices
`parse_logs` writes, or a string key such as `'__hop_lags__'`. -/
inductive RKey
  | idx (n : Nat)
  | name (s : String)
deriving DecidableEq, Repr

/-- One per-replica record of a CSN map.  `logtime` is the numeric UTC
timestamp; `etime` is the numeric value `float(...)` reads off the stored
field (`0` when the field is absent). -/
structure SEntry where
  logtime : Rat
  etime : Rat
  server_name : String
  suffix : Option String
  target_dn : Option String
  duration : Rat
deriving DecidableEq, Repr

/-- One hop record produced by `_compute_hop_lags`. -/
structure Hop where
  supplier : String
  consumer : String
  hop_lag : Rat
  arrival_consumer : Rat
  suffix : Option String
  target_dn : Option String
deriving DecidableEq, Repr

/-- A value of a per-CSN server map: a per-replica record dict, or the
`'__hop_lags__'` list. -/
inductive SVal
  | entry (e : SEntry)
  | hops (l : List Hop)
deriving DecidableEq, Repr

/-- A per-CSN server map. -/
abbrev ServerMap := PyDict RKey SVal

/-- The analyzer configuration consulted by `_should_include_record`. -/
structure FilterCfg where
  only_fully_replicated : Bool
  only_not_replicated : Bool
  lag_time_lowest : Option Rat
  etime_lowest : Option Rat
  numLogDirs : Nat
deriving DecidableEq, Repr

/-- The per-replica records of a server map, in key order, skipping
non-dict values and the `'__hop_lags__'` key — the guard both filter
branches and `_compute_hop_lags` share. -/
def entriesOf (m : ServerMap) : List SEntry :=
  m.filterMap (fun kv =>
    match kv.2 with
    | .entry e => if kv.1 = RKey.name "__hop_lags__" then none else some e
    | .hops _ => none)

/-- `max` of a nonempty list, Python style. -/
def listMax (x : Rat) : List Rat → Rat
  | [] => x
  | y :: ys => listMax (if x < y then y else x) ys

/-- `min` of a nonempty list, Python style. -/
def listMin (x : Rat) : List Rat → Rat
  | [] => x
  | y :: ys => listMin (if y < x then y else x) ys

/-- `ReplicationLogAnalyzerFallback._should_include_record`. -/
def should_include_record (cfg : FilterCfg) (serverMap : ServerMap) : Bool :=
  if cfg.only_fully_replicated && serverMap.length != cfg.numLogDirs then false
  else if cfg.only_not_replicated && serverMap.length == cfg.numLogDirs then false
  else
    let lagOk : Bool :=
      match cfg.lag_time_lowest with
      | none => true
      | some threshold =>
        match (entriesOf serverMap).map (fun e => e.logtime) with
        | [] => false
        | t :: ts => decide (threshold < listMax t ts - listMin t ts)
    if lagOk then
      match cfg.etime_lowest with
      | none => true
      | some threshold =>
          (entriesOf serverMap).all (fun e => decide (threshold < e.etime))
    else false

/-- One arrival tuple collected by `_compute_hop_lags`. -/
structure Arrival where
  server_name : String
  logtime : Rat
  suffix : Option String
  target_dn : Option String
deriving DecidableEq, Repr

/-- The arrival list of a server map, in key order. -/
def arrivalsOf (m : ServerMap) : List Arrival :=
  m.filterMap (fun kv =>
    match kv.2 with
    | .entry e =>
        if kv.1 = RKey.name "__hop_lags__" then none
        else some ⟨e.server_name, e.logtime, e.suffix, e.target_dn⟩
    | .hops _ => none)

/-- Stable insertion by ascending `logtime` (an element is placed before
every later-listed element with an equal key, as Python's stable
`list.sort` keeps earlier-listed elements first). -/
def insertByLogtime (a : Arrival) : List Arrival → List Arrival
  | [] => [a]
  | b :: bs =>
      if b.logtime < a.logtime then b :: insertByLogtime a bs
      else a :: b :: bs

/-- Stable sort by ascending `logtime`: `arrivals.sort(key=logtime)`. -/
def sortByLogtime : List Arrival → List Arrival
  | [] => []
  | x :: xs => insertByLogtime x (sortByLogtime xs)

/-- The consecutive-pair loop of `_compute_hop_lags`. -/
def hopsFrom : List Arrival → List Hop
  | a :: b :: rest =>
      ⟨a.server_name, b.server_name, b.logtime - a.logtime,
       b.logtime, b.suffix, b.target_dn⟩ :: hopsFrom (b :: rest)
  | _ => []

/-- `ReplicationLogAnalyzerFallback._compute_hop_lags`. -/
def compute_hop_lags (m : ServerMap) : List Hop :=
  hopsFrom (sortByLogtime (arrivalsOf m))

end DS389

namespace DS389

/-! ## The merge/split codec (`ds389_merge_logs.py`)

A `GlobalResult` document, per the persisted contract: the three
earliest-instant fields (the "common fields" `split_json` copies into
every output), the log-file list, and the change-id map.  `split_json`
receives the document as a JSON string and `json.loads` it; serializing
and re-loading is the identity on this value model, so the embedded
`split_json` takes the document directly.  The inner change-id maps are
kept generic in the entry type `E`: the codec only moves entries around. -/

structure Doc (E : Type) where
  startTime : String
  utcStartTime : Rat
  utcOffset : Rat
  logFiles : List String
  lag : PyDict String (PyDict String E)
deriving DecidableEq, Repr

/-- Python `str(i)` for an `int`. -/
def intToStr : Int → String
  | .ofNat n => natToStr n
  | .negSucc n => "-" ++ natToStr (n + 1)

/-- Normalize a Python sequence index (negative indices count from the
end); out of range raises `IndexError`. -/
def pyNormIdx {α : Type} (l : List α) (i : Int) : Except PyErr Nat :=
  if 0 ≤ i ∧ i < (l.length : Int) then .ok i.toNat
  else if -(l.length : Int) ≤ i ∧ i < 0 then .ok (i + l.length).toNat
  else .error .indexError

/-- The scan of Python's `min(iterable, key=...)`: keep the first element
whose key every later key fails to undercut. -/
def pyMinGo {α : Type} (key : α → Except PyErr PyDateTime) :
    α → PyDateTime → List α → Except PyErr α
  | best, _, [] => .ok best
  | best, bk, x :: xs => do
      let k ← key x
      let lt ← dtLt k bk
      if lt then pyMinGo key x k xs else pyMinGo key best bk xs

/-- `min(json_list, key=lambda x: datetime.fromisoformat(x["start-time"]))`:
empty input raises `ValueError`. -/
def pyMinBy {α : Type} (key : α → Except PyErr PyDateTime) :
    List α → Except PyErr α
  | [] => .error (.valueError "min() arg is an empty sequence")
  | x :: xs => do
      let k ← key x
      pyMinGo key x k xs

/-- The inner loop of `merge_jsons` for one change-id entry of input
`idx`: ensure the merged map has the change id, then write every inner
value of the input entry to key `str(idx)` (each write overwrites the
previous one, so only the last inner value of the entry survives). -/
def mergeLagOne {E : Type} (idx : Nat)
    (acc : PyDict String (PyDict String E)) (lagEntry : String × PyDict String E) :
    PyDict String (PyDict String E) :=
  let key := lagEntry.1
  let acc := if dmem acc key then acc else dset acc key []
  lagEntry.2.foldl (fun acc iv =>
    let inner := (dget? acc key).getD []
    dset acc key (dset inner (natToStr idx) iv.2)) acc

/-- The change-id map loop of `merge_jsons` over all enumerated inputs. -/
def mergeLag {E : Type} (jsonList : List (Doc E)) :
    PyDict String (PyDict String E) :=
  jsonList.enum.foldl
    (fun acc p => p.2.lag.foldl (mergeLagOne p.1) acc) []

/-- `ds389_merge_logs.merge_jsons`. -/
def merge_jsons {E : Type} (jsonList : List (Doc E)) : Except PyErr (Doc E) := do
  let earliest ← pyMinBy (fun d => fromisoformat d.startTime) jsonList
  Except.ok { earliest with
    logFiles := jsonList.foldl (fun a d => a ++ d.logFiles) [],
    lag := mergeLag jsonList }

/-- The per-change-id loop body of `split_json`:
`file_index = int(list(lag_info.keys())[0])`, then the entry at
`lag_info[str(file_index)]` is re-keyed to `"0"` in the output document at
position `file_index`. -/
def splitStep {E : Type} (outs : List (Doc E)) (p : String × PyDict String E) :
    Except PyErr (List (Doc E)) := do
  let lagId := p.1
  let lagInfo := p.2
  let firstKey ←
    match lagInfo with
    | [] => Except.error PyErr.indexError
    | (k, _) :: _ => Except.ok k
  let fi ←
    match strToInt? firstKey with
    | some n => Except.ok n
    | none => Except.error (PyErr.valueError ("invalid literal for int: " ++ firstKey))
  let entry ←
    match dget? lagInfo (intToStr fi) with
    | some v => Except.ok v
    | none => Except.error (PyErr.keyError (intToStr fi))
  let n ← pyNormIdx outs fi
  let target ←
    match outs.get? n with
    | some t => Except.ok t
    | none => Except.error PyErr.indexError
  Except.ok (outs.set n { target with lag := dset target.lag lagId [("0", entry)] })

/-- `ds389_merge_logs.split_json`: one output per log-file entry, each
carrying the merged document's common fields, then each change id is
assigned to exactly one output. -/
def split_json {E : Type} (d : Doc E) : Except PyErr (List (Doc E)) := do
  let base := d.logFiles.map (fun f =>
    { startTime := d.startTime, utcStartTime := d.utcStartTime,
      utcOffset := d.utcOffset, logFiles := [f],
      lag := ([] : PyDict String (PyDict String E)) })
  d.lag.foldlM splitStep base

end DS389

namespace DS389

/-- The change ids of a document, in insertion order. -/
def lagKeys {E : Type} (d : Doc E) : List String :=
  d.lag.map (fun p => p.1)

/-- A per-replica document as produced independently by one replica's
parser run: exactly one log file, and every change-id entry keyed by the
single local replica index `"0"`. -/
def perReplicaDoc {E : Type} (d : Doc E) : Prop :=
  (∃ f, d.logFiles = [f]) ∧ (∀ p ∈ d.lag, ∃ e : E, p.2 = [("0", e)])

end DS389

namespace DS389

/-! ## Dictionary lemmas -/

theorem dget?_dset_self {K V : Type} [DecidableEq K] (d : PyDict K V) (k : K) (v : V) :
    dget? (dset d k v) k = some v := by
  induction d with
  | nil => simp [dset, dget?]
  | cons kv rest ih =>
      obtain ⟨k', v'⟩ := kv
      by_cases h : k' = k
      · subst h; simp [dset, dget?]
      · simp [dset, dget?, h, ih]

theorem dget?_dset_ne {K V : Type} [DecidableEq K] (d : PyDict K V) (k k' : K) (v : V)
    (h : k ≠ k') : dget? (dset d k v) k' = dget? d k' := by
  induction d with
  | nil => simp [dset, dget?, h]
  | cons kv rest ih =>
      obtain ⟨k₀, v₀⟩ := kv
      by_cases h0 : k₀ = k
      · subst h0; simp [dset, dget?, h]
      · simp [dset, dget?, h0, ih]

theorem dmem_dset_self {K V : Type} [DecidableEq K] (d : PyDict K V) (k : K) (v : V) :
    dmem (dset d k v) k = true := by
  simp [dmem, dget?_dset_self]

/-! ## Claim C4 -/

/-- C4: when the fully-replicated-only and not-replicated-only flags are
both enabled, `_should_include_record` keeps no change-id entry,
regardless of the entry's replica count or the configured total. -/
theorem claim_C4_both_flags_yield_empty (cfg : FilterCfg) (m : ServerMap)
    (hf : cfg.only_fully_replicated = true) (hn : cfg.only_not_replicated = true) :
    should_include_record cfg m = false := by
  unfold should_include_record
  by_cases h : m.length = cfg.numLogDirs
  · simp [hf, hn, h]
  · simp [hf, hn, h]

/-- Witness for C4 at a concrete filter configuration and entry. -/
theorem claim_C4_both_flags_yield_empty_witness :
    should_include_record ⟨true, true, none, none, 1⟩
      [(RKey.idx 0, SVal.entry ⟨1, 1, "s0", none, none, 0⟩)] = false :=
  claim_C4_both_flags_yield_empty ⟨true, true, none, none, 1⟩
    [(RKey.idx 0, SVal.entry ⟨1, 1, "s0", none, none, 0⟩)] rfl rfl

/-! ## Claim C9 -/

/-- C9: a tokenized line carrying a terminal keyword whose `(conn, op)`
pair has no pending entry emits no record and leaves the
pending-operations table unchanged. -/
theorem claim_C9_terminal_without_pending_is_noop
    (cfg : ParserCfg) (pending : PendingOps) (r : ParserResult) (c o : String)
    (hc : dget? r.vars "conn" = some c) (ho : dget? r.vars "op" = some o)
    (hc' : c.isEmpty = false) (ho' : o.isEmpty = false)
    (hterm : hasTerminalKeyword r = true)
    (hnp : dget? pending (c, o) = none) :
    process_operation cfg pending r = (none, pending) := by
  unfold process_operation
  rw [hc, ho]
  simp [hc', ho', hterm, hnp]

/-- Witness for C9: a concrete `RESULT` line for a pair that is not
pending. -/
theorem claim_C9_terminal_without_pending_is_noop_witness :
    process_operation ⟨[], 0, none, none⟩ []
      ⟨["RESULT"], [("conn", "1"), ("op", "2")], "[01/Jan/2024:00:00:00.0 +0000]"⟩ =
      (none, []) :=
  claim_C9_terminal_without_pending_is_noop ⟨[], 0, none, none⟩ []
    ⟨["RESULT"], [("conn", "1"), ("op", "2")], "[01/Jan/2024:00:00:00.0 +0000]"⟩
    "1" "2" (by decide) (by decide) (by decide) (by decide) (by decide) (by decide)

end DS389

namespace DS389

/-! ## Claim C5 -/

/-- C5: with an etime threshold configured (and no other filter), an
entry is kept exactly when every per-replica record's etime strictly
exceeds the threshold — one comparison per record; with a lag-time
threshold configured (and no other filter), the entry is kept exactly
when the single aggregate `max logtime - min logtime` strictly exceeds
the threshold. -/
theorem claim_C5_etime_per_record_lag_aggregate (θ lam : Rat) (n : Nat) (m : ServerMap) :
    (should_include_record ⟨false, false, none, some θ, n⟩ m = true ↔
        ∀ e ∈ entriesOf m, θ < e.etime) ∧
    (should_include_record ⟨false, false, some lam, none, n⟩ m = true ↔
        ∃ t ts, (entriesOf m).map (fun e => e.logtime) = t :: ts ∧
          lam < listMax t ts - listMin t ts) := by
  constructor
  · unfold should_include_record
    simp [List.all_eq_true]
  · unfold should_include_record
    cases h : (entriesOf m).map (fun e => e.logtime) with
    | nil => simp [h]
    | cons t ts =>
        simp only [h]
        constructor
        · intro hlt
          by_cases hc : lam < listMax t ts - listMin t ts
          · exact ⟨t, ts, rfl, hc⟩
          · simp [hc] at hlt
        · rintro ⟨t', ts', htt, hlt⟩
          cases htt
          simp [hlt]

/-- Witness for C5 at a concrete threshold and two-replica entry. -/
theorem claim_C5_etime_per_record_lag_aggregate_witness :
    (∀ e ∈ entriesOf [(RKey.idx 0, SVal.entry ⟨1, 2, "s0", none, none, 0⟩),
                      (RKey.idx 1, SVal.entry ⟨5, 3, "s1", none, none, 0⟩)],
        (1 : Rat) < e.etime) ∧
    should_include_record ⟨false, false, none, some 1, 2⟩
      [(RKey.idx 0, SVal.entry ⟨1, 2, "s0", none, none, 0⟩),
       (RKey.idx 1, SVal.entry ⟨5, 3, "s1", none, none, 0⟩)] = true :=
  ⟨by decide,
   (claim_C5_etime_per_record_lag_aggregate 1 3 2
      [(RKey.idx 0, SVal.entry ⟨1, 2, "s0", none, none, 0⟩),
       (RKey.idx 1, SVal.entry ⟨5, 3, "s1", none, none, 0⟩)]).1.mpr (by decide)⟩

/-! ## Claim C7: stable length-descending sort and longest-suffix match -/

theorem insertByLenDesc_perm (a : String) (l : List String) :
    (insertByLenDesc a l).Perm (a :: l) := by
  induction l with
  | nil => simp [insertByLenDesc]
  | cons b bs ih =>
      unfold insertByLenDesc
      by_cases h : a.length < b.length
      · simp only [if_pos h]
        exact (ih.cons b).trans (List.Perm.swap a b bs)
      · simp [if_neg h]

theorem sortByLenDesc_perm (l : List String) : (sortByLenDesc l).Perm l := by
  induction l with
  | nil => simp [sortByLenDesc]
  | cons x xs ih =>
      exact (insertByLenDesc_perm x (sortByLenDesc xs)).trans (ih.cons x)

theorem insertByLenDesc_sorted (a : String) (l : List String)
    (h : l.Pairwise (fun x y => y.length ≤ x.length)) :
    (insertByLenDesc a l).Pairwise (fun x y => y.length ≤ x.length) := by
  induction l with
  | nil => simp [insertByLenDesc]
  | cons b bs ih =>
      rcases List.pairwise_cons.mp h with ⟨hb, hbs⟩
      unfold insertByLenDesc
      by_cases hlt : a.length < b.length
      · simp only [if_pos hlt]
        refine List.pairwise_cons.mpr ⟨?_, ih hbs⟩
        intro x hx
        have hmem := (insertByLenDesc_perm a bs).mem_iff.mp hx
        rcases List.mem_cons.mp hmem with hxa | hxbs
        · subst hxa; exact Nat.le_of_lt hlt
        · exact hb x hxbs
      · simp only [if_neg hlt]
        refine List.pairwise_cons.mpr ⟨?_, h⟩
        intro x hx
        rcases List.mem_cons.mp hx with hxb | hxbs
        · subst hxb; exact Nat.le_of_not_lt hlt
        · exact Nat.le_trans (hb x hxbs) (Nat.le_of_not_lt hlt)

theorem sortByLenDesc_sorted (l : List String) :
    (sortByLenDesc l).Pairwise (fun x y => y.length ≤ x.length) := by
  induction l with
  | nil => simp [sortByLenDesc]
  | cons x xs ih => exact insertByLenDesc_sorted x (sortByLenDesc xs) ih

/-- The first match in a length-descending list is a longest match. -/
theorem find?_longest (p : String → Bool) (l : List String)
    (hs : l.Pairwise (fun x y => y.length ≤ x.length)) (s : String)
    (hf : l.find? p = some s) :
    ∀ s' ∈ l, p s' = true → s'.length ≤ s.length := by
  induction l with
  | nil => simp at hf
  | cons x xs ih =>
      rcases List.pairwise_cons.mp hs with ⟨hx, hxs⟩
      by_cases hpx : p x = true
      · rw [List.find?_cons_of_pos _ hpx] at hf
        injection hf with hf
        subst hf
        intro s' hs' _
        rcases List.mem_cons.mp hs' with h | h
        · subst h; exact Nat.le_refl _
        · exact hx s' h
      · rw [List.find?_cons_of_neg _ (by simpa using hpx)] at hf
        intro s' hs' hp'
        rcases List.mem_cons.mp hs' with h | h
        · subst h; exact absurd hp' hpx
        · exact ih hxs hf s' h hp'

/-- C7: the suffix matcher normalizes the DN and scans the configured,
normalized suffixes in stable length-descending order; a returned suffix
is a configured normalized suffix the normalized DN ends with, of maximal
length among all matching configured suffixes; `none` (for a nonempty DN)
means no configured suffix matches; and the claim's concrete instance
resolves to the longer suffix. -/
theorem claim_C7_longest_suffix_match :
    (∀ cfgS dn s, match_suffix (normalize_suffixes cfgS) dn = some s →
        s ∈ (cfgS.filter (fun x => ¬ x.isEmpty)).map normalizeDN ∧
        endsWithChars (normalizeDN dn).data s.data = true ∧
        ∀ s' ∈ (cfgS.filter (fun x => ¬ x.isEmpty)).map normalizeDN,
          endsWithChars (normalizeDN dn).data s'.data = true → s'.length ≤ s.length) ∧
    (∀ cfgS dn, dn ≠ "" → match_suffix (normalize_suffixes cfgS) dn = none →
        ∀ s' ∈ (cfgS.filter (fun x => ¬ x.isEmpty)).map normalizeDN,
          endsWithChars (normalizeDN dn).data s'.data = false) ∧
    match_suffix (normalize_suffixes ["dc=com", "dc=example,dc=com"])
        "ou=x,dc=example,dc=com" = some "dc=example,dc=com" := by
  refine ⟨?_, ?_, by decide⟩
  · intro cfgS dn s hm
    unfold match_suffix at hm
    by_cases hdn : dn.isEmpty
    · simp [hdn] at hm
    · rw [if_neg (by simp [hdn])] at hm
      have hperm := sortByLenDesc_perm ((cfgS.filter (fun x => ¬ x.isEmpty)).map normalizeDN)
      have hmem : s ∈ normalize_suffixes cfgS := List.mem_of_find?_eq_some hm
      unfold normalize_suffixes at hmem
      have hsorted : (normalize_suffixes cfgS).Pairwise (fun x y => y.length ≤ x.length) := by
        unfold normalize_suffixes
        exact sortByLenDesc_sorted ((cfgS.filter (fun x => ¬ x.isEmpty)).map normalizeDN)
      have hp : endsWithChars (normalizeDN dn).data s.data = true := by
        have := List.find?_some hm
        simpa using this
      refine ⟨hperm.mem_iff.mp hmem, hp, ?_⟩
      intro s' hs' hp'
      have hs'' : s' ∈ normalize_suffixes cfgS := by
        unfold normalize_suffixes
        exact hperm.mem_iff.mpr hs'
      exact find?_longest _ _ hsorted s hm s' hs'' hp'
  · intro cfgS dn hdn hm
    unfold match_suffix at hm
    have hdn' : dn.isEmpty = false := by
      cases h : dn.isEmpty
      · rfl
      · exact absurd ((String.isEmpty_iff dn).mp h) hdn
    rw [if_neg (by simp [hdn'])] at hm
    intro s' hs'
    have hs'' : s' ∈ normalize_suffixes cfgS := by
      unfold normalize_suffixes
      exact (sortByLenDesc_perm _).mem_iff.mpr hs'
    have hnone := List.find?_eq_none.mp hm s' hs''
    simpa using hnone

/-- Witness for C7's general part, at the claim's concrete instance. -/
theorem claim_C7_longest_suffix_match_witness :
    "dc=example,dc=com" ∈
        (["dc=com", "dc=example,dc=com"].filter (fun x => ¬ x.isEmpty)).map normalizeDN ∧
    endsWithChars (normalizeDN "ou=x,dc=example,dc=com").data
      "dc=example,dc=com".data = true :=
  let h := claim_C7_longest_suffix_match.1 ["dc=com", "dc=example,dc=com"]
    "ou=x,dc=example,dc=com" "dc=example,dc=com" (by decide)
  ⟨h.1, h.2.1⟩

end DS389

namespace DS389

/-! ## Claim C6: hop-lag computation -/

theorem insertByLogtime_perm (a : Arrival) (l : List Arrival) :
    (insertByLogtime a l).Perm (a :: l) := by
  induction l with
  | nil => simp [insertByLogtime]
  | cons b bs ih =>
      unfold insertByLogtime
      by_cases h : b.logtime < a.logtime
      · simp only [if_pos h]
        exact (ih.cons b).trans (List.Perm.swap a b bs)
      · simp [if_neg h]

theorem sortByLogtime_perm (l : List Arrival) : (sortByLogtime l).Perm l := by
  induction l with
  | nil => simp [sortByLogtime]
  | cons x xs ih =>
      exact (insertByLogtime_perm x (sortByLogtime xs)).trans (ih.cons x)

theorem insertByLogtime_sorted (a : Arrival) (l : List Arrival)
    (h : l.Pairwise (fun x y => x.logtime ≤ y.logtime)) :
    (insertByLogtime a l).Pairwise (fun x y => x.logtime ≤ y.logtime) := by
  induction l with
  | nil => simp [insertByLogtime]
  | cons b bs ih =>
      rcases List.pairwise_cons.mp h with ⟨hb, hbs⟩
      unfold insertByLogtime
      by_cases hlt : b.logtime < a.logtime
      · simp only [if_pos hlt]
        refine List.pairwise_cons.mpr ⟨?_, ih hbs⟩
        intro x hx
        rcases List.mem_cons.mp ((insertByLogtime_perm a bs).mem_iff.mp hx) with hxa | hxbs
        · subst hxa; exact le_of_lt hlt
        · exact hb x hxbs
      · simp only [if_neg hlt]
        refine List.pairwise_cons.mpr ⟨?_, h⟩
        intro x hx
        rcases List.mem_cons.mp hx with hxb | hxbs
        · subst hxb; exact le_of_not_lt hlt
        · exact le_trans (le_of_not_lt hlt) (hb x hxbs)

theorem sortByLogtime_sorted (l : List Arrival) :
    (sortByLogtime l).Pairwise (fun x y => x.logtime ≤ y.logtime) := by
  induction l with
  | nil => simp [sortByLogtime]
  | cons x xs ih => exact insertByLogtime_sorted x (sortByLogtime xs) ih

/-- Stability of the insertion step, phrased through the equal-key
sublists: inserting `a` leaves the relative order of all other elements
with any fixed logtime untouched, and prepends `a` to its own key class. -/
theorem insertByLogtime_filter (a : Arrival) (l : List Arrival) (t : Rat) :
    (insertByLogtime a l).filter (fun x => decide (x.logtime = t)) =
      if a.logtime = t then a :: l.filter (fun x => decide (x.logtime = t))
      else l.filter (fun x => decide (x.logtime = t)) := by
  induction l with
  | nil =>
      by_cases ha : a.logtime = t
      · simp [insertByLogtime, ha]
      · simp [insertByLogtime, ha]
  | cons b bs ih =>
      unfold insertByLogtime
      by_cases hlt : b.logtime < a.logtime
      · simp only [if_pos hlt]
        by_cases ha : a.logtime = t
        · have hb : ¬ b.logtime = t := by
            intro hbt
            exact absurd (hbt.trans ha.symm ▸ hlt) (lt_irrefl _)
          simp [List.filter_cons, hb, ih, ha]
        · simp [List.filter_cons, ih, ha]
      · simp only [if_neg hlt]
        by_cases ha : a.logtime = t
        · simp [List.filter_cons, ha]
        · simp [List.filter_cons, ha]

/-- Stability of the sort: every equal-logtime class keeps its original
relative order. -/
theorem sortByLogtime_filter (l : List Arrival) (t : Rat) :
    (sortByLogtime l).filter (fun x => decide (x.logtime = t)) =
      l.filter (fun x => decide (x.logtime = t)) := by
  induction l with
  | nil => simp [sortByLogtime]
  | cons x xs ih =>
      show (insertByLogtime x (sortByLogtime xs)).filter _ = _
      rw [insertByLogtime_filter]
      by_cases hx : x.logtime = t
      · simp [List.filter_cons, hx, ih]
      · simp [List.filter_cons, hx, ih]

theorem hopsFrom_nonneg (l : List Arrival)
    (h : l.Pairwise (fun x y => x.logtime ≤ y.logtime)) :
    ∀ hp ∈ hopsFrom l, 0 ≤ hp.hop_lag := by
  induction l with
  | nil => simp [hopsFrom]
  | cons a l ih =>
      cases l with
      | nil => simp [hopsFrom]
      | cons b rest =>
          rcases List.pairwise_cons.mp h with ⟨hab, h2⟩
          intro hp hmem
          rcases List.mem_cons.mp hmem with hphd | hmem'
          · subst hphd
            have hb : a.logtime ≤ b.logtime := hab b (by simp)
            simpa using sub_nonneg.mpr hb
          · exact ih h2 hp hmem'

theorem hopsFrom_get? (l : List Arrival) (i : Nat) (hp : Hop)
    (h : (hopsFrom l).get? i = some hp) :
    ∃ a b, l.get? i = some a ∧ l.get? (i + 1) = some b ∧
      hp = ⟨a.server_name, b.server_name, b.logtime - a.logtime,
            b.logtime, b.suffix, b.target_dn⟩ := by
  induction l generalizing i with
  | nil => simp [hopsFrom] at h
  | cons a l ih =>
      cases l with
      | nil => simp [hopsFrom] at h
      | cons b rest =>
          cases i with
          | zero =>
              refine ⟨a, b, rfl, rfl, ?_⟩
              simp [hopsFrom] at h
              exact h.symm
          | succ i =>
              have h' : (hopsFrom (b :: rest)).get? i = some hp := by
                simpa [hopsFrom] using h
              exact ih i h'

/-- C6: `_compute_hop_lags` stable-sorts the arrival tuples ascending by
logtime (the sort is a permutation, sorted, and stable — combined with the
ascending replica-index insertion order of the maps `parse_logs` builds,
ties are broken by replica index ascending), emits one hop per consecutive
pair of the sorted list with hop lag `consumer.logtime - supplier.logtime`
together with the consumer's arrival time, suffix, and target DN, and so
every emitted hop lag is nonnegative; fewer than two replica entries yield
an empty hop list. -/
theorem claim_C6_hop_lags_sorted_nonneg (m : ServerMap) :
    (∀ hp ∈ compute_hop_lags m, 0 ≤ hp.hop_lag) ∧
    ((arrivalsOf m).length ≤ 1 → compute_hop_lags m = []) ∧
    (sortByLogtime (arrivalsOf m)).Pairwise (fun x y => x.logtime ≤ y.logtime) ∧
    (sortByLogtime (arrivalsOf m)).Perm (arrivalsOf m) ∧
    (∀ t : Rat, (sortByLogtime (arrivalsOf m)).filter (fun x => decide (x.logtime = t)) =
        (arrivalsOf m).filter (fun x => decide (x.logtime = t))) ∧
    (∀ i hp, (compute_hop_lags m).get? i = some hp →
        ∃ a b, (sortByLogtime (arrivalsOf m)).get? i = some a ∧
          (sortByLogtime (arrivalsOf m)).get? (i + 1) = some b ∧
          hp = ⟨a.server_name, b.server_name, b.logtime - a.logtime,
                b.logtime, b.suffix, b.target_dn⟩) := by
  refine ⟨?_, ?_, sortByLogtime_sorted _, sortByLogtime_perm _, sortByLogtime_filter _, ?_⟩
  · exact hopsFrom_nonneg _ (sortByLogtime_sorted _)
  · intro hlen
    have hslen : (sortByLogtime (arrivalsOf m)).length ≤ 1 := by
      rw [(sortByLogtime_perm (arrivalsOf m)).length_eq]
      exact hlen
    unfold compute_hop_lags
    cases hs : sortByLogtime (arrivalsOf m) with
    | nil => simp [hopsFrom]
    | cons x xs =>
        cases xs with
        | nil => simp [hopsFrom]
        | cons y ys =>
            rw [hs] at hslen
            simp at hslen
  · exact fun i hp h => hopsFrom_get? _ i hp h

/-- Witness for C6: a single-replica entry yields no hops. -/
theorem claim_C6_hop_lags_sorted_nonneg_witness :
    compute_hop_lags [(RKey.idx 0, SVal.entry ⟨1, 0, "s0", none, none, 0⟩)] = [] :=
  (claim_C6_hop_lags_sorted_nonneg
    [(RKey.idx 0, SVal.entry ⟨1, 0, "s0", none, none, 0⟩)]).2.1 (by decide)

end DS389

namespace DS389

/-! ## Claim C2: later matched lines overwrite suffix and target DN -/

/-- C2 (amended): on a non-terminal line for an open pair whose DN matches
a monitored suffix, `_process_operation` stores the line's matched suffix
and its DN unconditionally — the stored suffix and target DN are
overwritten by every later matched line of the same operation (last match
wins, exactly like the change id), and the change id is stored/overwritten
whenever the line carries one; the last-seen time is updated and nothing
is emitted. -/
theorem claim_C2_suffix_target_dn_overwritten
    (cfg : ParserCfg) (pending : PendingOps) (r : ParserResult) (c o : String) (od : OpData)
    (hc : dget? r.vars "conn" = some c) (ho : dget? r.vars "op" = some o)
    (hc' : c.isEmpty = false) (ho' : o.isEmpty = false)
    (hterm : hasTerminalKeyword r = false)
    (hpend : dget? pending (c, o) = some od)
    (dn sfx : String)
    (hdn : dget? r.vars "dn" = some dn)
    (hsfx : match_suffix cfg.suffixes dn = some sfx) :
    (process_operation cfg pending r).1 = none ∧
    ∃ od', dget? (process_operation cfg pending r).2 (c, o) = some od' ∧
      dget? od' "suffix" = some (PyVal.vstr sfx) ∧
      dget? od' "target_dn" = some (PyVal.vstr dn) ∧
      dget? od' "last_time" = some (PyVal.vstr r.timestamp) ∧
      (∀ cs, dget? r.vars "csn" = some cs → dget? od' "csn" = some (PyVal.vstr cs)) ∧
      (dget? r.vars "csn" = none → dget? od' "csn" = dget? od "csn") := by
  unfold process_operation
  rw [hc, ho]
  simp only [hc', ho', hterm, hpend, hdn, hsfx, Bool.false_eq_true, if_false,
    dget?_dset_self, Option.getD_some]
  cases hcs : dget? r.vars "csn" with
  | none =>
      refine ⟨by simp, dset (dset (dset od "last_time" (PyVal.vstr r.timestamp))
        "suffix" (PyVal.vstr sfx)) "target_dn" (PyVal.vstr dn), ?_, ?_, ?_, ?_, ?_, ?_⟩
      · simp [dget?_dset_self]
      · rw [dget?_dset_ne _ _ _ _ (by decide), dget?_dset_self]
      · exact dget?_dset_self _ _ _
      · rw [dget?_dset_ne _ _ _ _ (by decide), dget?_dset_ne _ _ _ _ (by decide),
          dget?_dset_self]
      · intro cs hcs'
        exact Option.noConfusion hcs'
      · intro _
        rw [dget?_dset_ne _ _ _ _ (by decide), dget?_dset_ne _ _ _ _ (by decide),
          dget?_dset_ne _ _ _ _ (by decide)]
  | some cs =>
      refine ⟨by simp, dset (dset (dset (dset od "last_time" (PyVal.vstr r.timestamp))
        "suffix" (PyVal.vstr sfx)) "target_dn" (PyVal.vstr dn)) "csn" (PyVal.vstr cs),
        ?_, ?_, ?_, ?_, ?_, ?_⟩
      · simp [dget?_dset_self]
      · rw [dget?_dset_ne _ _ _ _ (by decide), dget?_dset_ne _ _ _ _ (by decide),
          dget?_dset_self]
      · rw [dget?_dset_ne _ _ _ _ (by decide), dget?_dset_self]
      · rw [dget?_dset_ne _ _ _ _ (by decide), dget?_dset_ne _ _ _ _ (by decide),
          dget?_dset_ne _ _ _ _ (by decide), dget?_dset_self]
      · intro cs' hcs'
        injection hcs' with hcs'
        subst hcs'
        exact dget?_dset_self _ _ _
      · intro hnone
        exact Option.noConfusion hnone

/-- Counterexample to C2 as stated: the pair's suffix and target DN were
already set by an earlier matched line (`ou=a,...`), yet processing a
later matching line for the same operation replaces the stored target DN
with the new line's DN (`ou=b,...`) instead of leaving it unchanged. -/
theorem claim_C2_first_match_wins_counterexample :
    (dget? ((process_operation ⟨["dc=example,dc=com"], 0, none, none⟩
        [(("1", "2"),
          [("start_time", PyVal.vstr "[01/Jan/2024:00:00:00.0 +0000]"),
           ("last_time", PyVal.vstr "[01/Jan/2024:00:00:00.0 +0000]"),
           ("conn", PyVal.vstr "1"), ("op", PyVal.vstr "2"),
           ("suffix", PyVal.vstr "dc=example,dc=com"),
           ("target_dn", PyVal.vstr "ou=a,dc=example,dc=com")])]
        ⟨["MOD"], [("conn", "1"), ("op", "2"), ("dn", "ou=b,dc=example,dc=com")],
         "[01/Jan/2024:00:00:01.0 +0000]"⟩).2) ("1", "2")).map
        (fun od => dget? od "target_dn")
      = some (some (PyVal.vstr "ou=b,dc=example,dc=com")) ∧
    some (PyVal.vstr "ou=b,dc=example,dc=com") ≠
      some (PyVal.vstr "ou=a,dc=example,dc=com") :=
  ⟨by decide, by decide⟩

/-- Witness for the amended C2 theorem at the counterexample's input. -/
theorem claim_C2_suffix_target_dn_overwritten_witness :
    ((process_operation ⟨["dc=example,dc=com"], 0, none, none⟩
        [(("1", "2"),
          [("start_time", PyVal.vstr "[01/Jan/2024:00:00:00.0 +0000]"),
           ("last_time", PyVal.vstr "[01/Jan/2024:00:00:00.0 +0000]"),
           ("conn", PyVal.vstr "1"), ("op", PyVal.vstr "2"),
           ("suffix", PyVal.vstr "dc=example,dc=com"),
           ("target_dn", PyVal.vstr "ou=a,dc=example,dc=com")])]
        ⟨["MOD"], [("conn", "1"), ("op", "2"), ("dn", "ou=b,dc=example,dc=com")],
         "[01/Jan/2024:00:00:01.0 +0000]"⟩).1 = none) ∧
    ∃ od', dget? ((process_operation ⟨["dc=example,dc=com"], 0, none, none⟩
        [(("1", "2"),
          [("start_time", PyVal.vstr "[01/Jan/2024:00:00:00.0 +0000]"),
           ("last_time", PyVal.vstr "[01/Jan/2024:00:00:00.0 +0000]"),
           ("conn", PyVal.vstr "1"), ("op", PyVal.vstr "2"),
           ("suffix", PyVal.vstr "dc=example,dc=com"),
           ("target_dn", PyVal.vstr "ou=a,dc=example,dc=com")])]
        ⟨["MOD"], [("conn", "1"), ("op", "2"), ("dn", "ou=b,dc=example,dc=com")],
         "[01/Jan/2024:00:00:01.0 +0000]"⟩).2) ("1", "2") = some od' ∧
      dget? od' "suffix" = some (PyVal.vstr "dc=example,dc=com") ∧
      dget? od' "target_dn" = some (PyVal.vstr "ou=b,dc=example,dc=com") ∧
      dget? od' "last_time" = some (PyVal.vstr "[01/Jan/2024:00:00:01.0 +0000]") ∧
      (∀ cs, dget? [("conn", "1"), ("op", "2"), ("dn", "ou=b,dc=example,dc=com")]
          "csn" = some cs → dget? od' "csn" = some (PyVal.vstr cs)) ∧
      (dget? [("conn", "1"), ("op", "2"), ("dn", "ou=b,dc=example,dc=com")] "csn" = none →
        dget? od' "csn" = dget?
          [("start_time", PyVal.vstr "[01/Jan/2024:00:00:00.0 +0000]"),
           ("last_time", PyVal.vstr "[01/Jan/2024:00:00:00.0 +0000]"),
           ("conn", PyVal.vstr "1"), ("op", PyVal.vstr "2"),
           ("suffix", PyVal.vstr "dc=example,dc=com"),
           ("target_dn", PyVal.vstr "ou=a,dc=example,dc=com")] "csn") :=
  claim_C2_suffix_target_dn_overwritten
    ⟨["dc=example,dc=com"], 0, none, none⟩
    [(("1", "2"),
      [("start_time", PyVal.vstr "[01/Jan/2024:00:00:00.0 +0000]"),
       ("last_time", PyVal.vstr "[01/Jan/2024:00:00:00.0 +0000]"),
       ("conn", PyVal.vstr "1"), ("op", PyVal.vstr "2"),
       ("suffix", PyVal.vstr "dc=example,dc=com"),
       ("target_dn", PyVal.vstr "ou=a,dc=example,dc=com")])]
    ⟨["MOD"], [("conn", "1"), ("op", "2"), ("dn", "ou=b,dc=example,dc=com")],
     "[01/Jan/2024:00:00:01.0 +0000]"⟩
    "1" "2" _ (by decide) (by decide) (by decide) (by decide) (by decide) (by decide)
    "ou=b,dc=example,dc=com" "dc=example,dc=com" (by decide) (by decide)

end DS389

namespace DS389

/-! ## Claim C3: end-of-file flush -/

/-- Every datetime `parse_timestamp` produces carries the line's offset,
hence is timezone-aware. -/
theorem parse_timestamp_aware (s : String) (dt : PyDateTime)
    (h : parse_timestamp s = Except.ok dt) : dt.aware = true := by
  unfold parse_timestamp at h
  repeat' split at h
  all_goals (first | (injection h with h; subst h; rfl) | injection h)

/-- C3 (amended): at end of file a still-pending pair is emitted exactly
when it has captured a change id — the suffix half of the source's test
`'csn' in op_data and 'suffix' in op_data` is vacuous, because the
`suffix` key is created (with value `None`) the moment the pair is opened;
an emitted flush record uses the pair's last-seen time as its timestamp
and last-seen minus start as its duration, and the pending table drains
completely. -/
theorem claim_C3_flush_needs_csn_only
    (cfg : ParserCfg) (od : OpData) (st lt c o : String) (sdt ldt : PyDateTime)
    (hstart : dget? od "start_time" = some (PyVal.vstr st))
    (hlast : dget? od "last_time" = some (PyVal.vstr lt))
    (hconn : dget? od "conn" = some (PyVal.vstr c)) (hc : c.isEmpty = false)
    (hop : dget? od "op" = some (PyVal.vstr o)) (ho : o.isEmpty = false)
    (hsuf : dmem od "suffix" = true)
    (hstp : parse_timestamp st = Except.ok sdt)
    (hltp : parse_timestamp lt = Except.ok ldt)
    (hrange : is_in_time_range cfg ldt = true) :
    (dmem od "csn" = false → flush_pending cfg od = none) ∧
    (∀ cs, dget? od "csn" = some (PyVal.vstr cs) →
        flush_pending cfg od = some
          ⟨ldt, c, o, some cs, odGetStr od "suffix", odGetStr od "target_dn",
           ((cmpMicros ldt - cmpMicros sdt : Int) : Rat) / 1000000, none⟩) ∧
    (∀ pending : PendingOps, (process_remaining_ops cfg pending).2 = []) := by
  have haware_s := parse_timestamp_aware st sdt hstp
  have haware_l := parse_timestamp_aware lt ldt hltp
  refine ⟨?_, ?_, fun pending => rfl⟩
  · intro hno
    unfold flush_pending
    rw [hno]
    simp
  · intro cs hcs
    have hmemcsn : dmem od "csn" = true := by simp [dmem, hcs]
    unfold flush_pending
    rw [hmemcsn, hsuf]
    simp only [Bool.and_self, if_true]
    unfold create_record_remaining
    rw [hstart, hlast]
    simp only [Option.getD_some]
    rw [hltp]
    unfold odGetStr pyTimeOfVal calculate_duration asDatetime dtSubSeconds
    simp only [bind, Except.bind, pure, Except.pure, Except.map, hconn, hop, hcs, hstp,
      truthyStr, haware_s, haware_l, hrange, hc, ho]
    simp [hrange]

/-- Counterexample to C3 as stated: a pending pair that captured a change
id but never a suffix (its `suffix` slot is still `None`) is nevertheless
emitted at end of file — the claim's "only if it has captured … a suffix"
direction fails. -/
theorem claim_C3_flush_without_suffix_counterexample :
    (dget? (dset (newOpData "[01/Jan/2024:00:00:01.5 +0000]" "1" "2") "csn"
        (PyVal.vstr "abc")) "suffix" = some PyVal.vnone) ∧
    ((process_remaining_ops ⟨[], 0, none, none⟩
        [(("1", "2"), dset (newOpData "[01/Jan/2024:00:00:01.5 +0000]" "1" "2") "csn"
          (PyVal.vstr "abc"))]).1.map (fun r => (r.csn, r.suffix, r.timestamp))
      = [(some "abc", none, ⟨2024, 1, 1, 0, 0, 1, 0, true, 0⟩)]) :=
  ⟨by decide, by decide⟩

/-- Witness for the amended C3 theorem at a concrete pending entry. -/
theorem claim_C3_flush_needs_csn_only_witness :
    flush_pending ⟨[], 0, none, none⟩
      (dset (newOpData "[01/Jan/2024:00:00:01.5 +0000]" "1" "2") "csn"
        (PyVal.vstr "abc")) = some
      ⟨⟨2024, 1, 1, 0, 0, 1, 0, true, 0⟩, "1", "2", some "abc", none, none,
       ((cmpMicros ⟨2024, 1, 1, 0, 0, 1, 0, true, 0⟩ -
         cmpMicros ⟨2024, 1, 1, 0, 0, 1, 0, true, 0⟩ : Int) : Rat) / 1000000, none⟩ :=
  (claim_C3_flush_needs_csn_only ⟨[], 0, none, none⟩
    (dset (newOpData "[01/Jan/2024:00:00:01.5 +0000]" "1" "2") "csn" (PyVal.vstr "abc"))
    "[01/Jan/2024:00:00:01.5 +0000]" "[01/Jan/2024:00:00:01.5 +0000]" "1" "2"
    ⟨2024, 1, 1, 0, 0, 1, 0, true, 0⟩ ⟨2024, 1, 1, 0, 0, 1, 0, true, 0⟩
    (by decide) (by decide) (by decide) (by decide) (by decide) (by decide) (by decide)
    (by rfl) (by rfl) (by decide)).2.1 "abc" (by decide)

end DS389

namespace DS389

/-! ## Claim C8: timestamp normalization truncates to microseconds -/

/-- C8 (amended): for every string the timestamp regex matches with a
known month abbreviation, valid ISO field values, and a nonempty fraction
whose value integer-divided by 1000 fits in the microsecond range, the
normalizer produces the instant of the stated offset whose microsecond
component is the fraction integer-divided by 1000 (truncation, never
rounding); a string the regex rejects produces the distinct
invalid-format error.  Fractions whose quotient exceeds 999999 — possible
from the eleventh digit on — instead raise the microsecond range error,
which is what the counterexample exhibits. -/
theorem claim_C8_truncation_and_format_error :
    (∀ ts g mn, matchTimestamp ts = some g →
        dget? MONTH_LOOKUP ⟨g.month⟩ = some mn →
        isoGroupsValid g mn = true →
        g.nanosecond ≠ [] →
        digitsToNat g.nanosecond / 1000 ≤ 999999 →
        parse_timestamp ts = Except.ok
          ⟨digitsToNat g.year, mn, digitsToNat g.day, digitsToNat g.hour,
           digitsToNat g.minute, digitsToNat g.second,
           digitsToNat g.nanosecond / 1000, true, tzOffsetOf g⟩) ∧
    (∀ ts, matchTimestamp ts = none →
        parse_timestamp ts =
          Except.error (.valueError ("Invalid timestamp format: " ++ ts))) := by
  constructor
  · intro ts g mn hm hmon hval hnano hbound
    unfold parse_timestamp
    simp only [hm, hmon]
    rw [if_neg (by simp [hval]), if_neg hnano, if_pos hbound]
  · intro ts hm
    unfold parse_timestamp
    simp only [hm]

/-- Witness for C8 at a concrete timestamp with a nine-digit fraction:
`789123456 // 1000 = 789123` microseconds, `+0530` = 330 minutes. -/
theorem claim_C8_truncation_and_format_error_witness :
    parse_timestamp "[01/Jan/2024:12:34:56.789123456 +0530]" = Except.ok
      ⟨2024, 1, 1, 12, 34, 56, 789123, true, 330⟩ :=
  claim_C8_truncation_and_format_error.1 "[01/Jan/2024:12:34:56.789123456 +0530]"
    ⟨['0', '1'], ['J', 'a', 'n'], ['2', '0', '2', '4'], ['1', '2'], ['3', '4'],
     ['5', '6'], ['7', '8', '9', '1', '2', '3', '4', '5', '6'], false, ['0', '5'],
     ['3', '0']⟩ 1 (by rfl) (by rfl) (by rfl) (by decide) (by decide)

/-- Counterexample to C8 as stated: a vendor-grammar timestamp whose
fractional part has ten digits (`9999999999`) matches the regex and the
month lookup with valid ISO fields, yet `parse_timestamp` raises the
microsecond range error instead of producing an instant — "a fractional
part of any length" fails. -/
theorem claim_C8_fraction_overflow_counterexample :
    matchTimestamp "[01/Jan/2024:00:00:00.9999999999 +0000]" = some
      ⟨['0', '1'], ['J', 'a', 'n'], ['2', '0', '2', '4'], ['0', '0'], ['0', '0'],
       ['0', '0'], ['9', '9', '9', '9', '9', '9', '9', '9', '9', '9'], false,
       ['0', '0'], ['0', '0']⟩ ∧
    dget? MONTH_LOOKUP "Jan" = some 1 ∧
    isoGroupsValid
      ⟨['0', '1'], ['J', 'a', 'n'], ['2', '0', '2', '4'], ['0', '0'], ['0', '0'],
       ['0', '0'], ['9', '9', '9', '9', '9', '9', '9', '9', '9', '9'], false,
       ['0', '0'], ['0', '0']⟩ 1 = true ∧
    parse_timestamp "[01/Jan/2024:00:00:00.9999999999 +0000]" =
      Except.error (PyErr.valueError "microsecond must be in 0..999999") :=
  ⟨by rfl, by rfl, by decide, by rfl⟩

/-! ## Claim C10: duration computation -/

/-- C10 (amended): `_calculate_duration` returns the signed difference
`end - start` in seconds whenever both operands parse, and returns 0.0
when either operand fails to parse with a `ValueError` (format mismatch or
out-of-range fields) — but it is not total: a timestamp whose month
abbreviation is unknown, while still matching the regex, raises an
uncaught `KeyError` from the month lookup, which the counterexample
exhibits. -/
theorem claim_C10_duration_signed_or_zero :
    (∀ s e sdt edt, parse_timestamp s = Except.ok sdt →
        parse_timestamp e = Except.ok edt →
        calculate_duration (.ofStr s) (.ofStr e) =
          Except.ok (((cmpMicros edt - cmpMicros sdt : Int) : Rat) / 1000000)) ∧
    (∀ s e m, parse_timestamp s = Except.error (.valueError m) →
        calculate_duration (.ofStr s) e = Except.ok 0) ∧
    (∀ s e m sdt, parse_timestamp s = Except.ok sdt →
        parse_timestamp e = Except.error (.valueError m) →
        calculate_duration (.ofStr s) (.ofStr e) = Except.ok 0) := by
  refine ⟨?_, ?_, ?_⟩
  · intro s e sdt edt hs he
    have has := parse_timestamp_aware s sdt hs
    have hae := parse_timestamp_aware e edt he
    unfold calculate_duration asDatetime dtSubSeconds
    simp [bind, Except.bind, Except.map, hs, he, has, hae]
  · intro s e m hs
    unfold calculate_duration asDatetime
    simp [bind, Except.bind, Except.map, hs]
  · intro s e m sdt hs he
    unfold calculate_duration asDatetime dtSubSeconds
    simp [bind, Except.bind, Except.map, hs, he]

/-- Witness for C10 at two concrete parseable timestamps one second
apart. -/
theorem claim_C10_duration_signed_or_zero_witness :
    calculate_duration (.ofStr "[01/Jan/2024:00:00:00.0 +0000]")
        (.ofStr "[01/Jan/2024:00:00:01.0 +0000]") =
      Except.ok (((cmpMicros ⟨2024, 1, 1, 0, 0, 1, 0, true, 0⟩ -
        cmpMicros ⟨2024, 1, 1, 0, 0, 0, 0, true, 0⟩ : Int) : Rat) / 1000000) :=
  claim_C10_duration_signed_or_zero.1 "[01/Jan/2024:00:00:00.0 +0000]"
    "[01/Jan/2024:00:00:01.0 +0000]" ⟨2024, 1, 1, 0, 0, 0, 0, true, 0⟩
    ⟨2024, 1, 1, 0, 0, 1, 0, true, 0⟩ (by rfl) (by rfl)

/-- Counterexample to C10 as stated: an unknown three-letter month
(`Foo`) matches the timestamp regex, so `parse_timestamp` raises
`KeyError` — which `except (ValueError, TypeError)` does not catch — and
`_calculate_duration` raises instead of returning 0.0: it is not total. -/
theorem claim_C10_month_keyerror_counterexample :
    calculate_duration (.ofStr "[01/Foo/2024:00:00:00.0 +0000]")
        (.ofStr "[01/Jan/2024:00:00:00.0 +0000]") =
      Except.error (PyErr.keyError "Foo") := by rfl

end DS389

namespace DS389

/-! ## Claim C1: decimal rendering/parsing roundtrip -/

theorem natDigitsRev_eq_digits : ∀ fuel n : Nat, n ≤ fuel →
    natDigitsRev fuel n = Nat.digits 10 n := by
  intro fuel
  induction fuel with
  | zero =>
      intro n hn
      have : n = 0 := Nat.le_zero.mp hn
      subst this
      simp [natDigitsRev]
  | succ f ih =>
      intro n hn
      unfold natDigitsRev
      by_cases h0 : n = 0
      · subst h0; simp
      · rw [if_neg h0]
        have hdiv : n / 10 ≤ f := by
          have := Nat.div_lt_self (Nat.pos_of_ne_zero h0) (by norm_num : 1 < 10)
          omega
        rw [ih (n / 10) hdiv,
          Nat.digits_def' (by norm_num : 1 < 10) (Nat.pos_of_ne_zero h0)]

theorem charVal_digitChar (d : Nat) (h : d < 10) : charVal (digitChar d) = d := by
  interval_cases d <;> rfl

theorem isDigit_digitChar (d : Nat) (h : d < 10) : (digitChar d).isDigit = true := by
  interval_cases d <;> rfl

theorem digitChar_ne_minus (d : Nat) (h : d < 10) : digitChar d ≠ '-' := by
  interval_cases d <;> decide

theorem digitsToNat_append (l : List Char) (c : Char) :
    digitsToNat (l ++ [c]) = digitsToNat l * 10 + charVal c := by
  unfold digitsToNat
  rw [List.foldl_append]
  rfl

theorem digitsToNat_rev_digits : ∀ ds : List Nat, (∀ d ∈ ds, d < 10) →
    digitsToNat ((ds.map digitChar).reverse) = Nat.ofDigits 10 ds := by
  intro ds
  induction ds with
  | nil => intro _; rfl
  | cons d rest ih =>
      intro h
      simp only [List.map_cons, List.reverse_cons]
      rw [digitsToNat_append, ih (fun x hx => h x (List.mem_cons_of_mem _ hx)),
        charVal_digitChar d (h d (List.mem_cons_self _ _)), Nat.ofDigits_cons]
      ring

theorem strToInt?_natToStr (n : Nat) : strToInt? (natToStr n) = some (Int.ofNat n) := by
  by_cases h0 : n = 0
  · subst h0; rfl
  · have hdata : (natToStr n).data = ((Nat.digits 10 n).map digitChar).reverse := by
      unfold natToStr
      rw [if_neg h0, natDigitsRev_eq_digits n n le_rfl]
    have hne : Nat.digits 10 n ≠ [] := Nat.digits_ne_nil_iff_ne_zero.mpr h0
    have hlt : ∀ d ∈ Nat.digits 10 n, d < 10 :=
      fun d hd => Nat.digits_lt_base (by norm_num) hd
    obtain ⟨c, rest, hcr⟩ :
        ∃ c rest, ((Nat.digits 10 n).map digitChar).reverse = c :: rest := by
      apply List.exists_cons_of_ne_nil
      simp [hne]
    have hmemchar : ∀ x ∈ ((Nat.digits 10 n).map digitChar).reverse, x.isDigit = true := by
      intro x hx
      rw [List.mem_reverse] at hx
      obtain ⟨d, hd, rfl⟩ := List.mem_map.mp hx
      exact isDigit_digitChar d (hlt d hd)
    have hcdig : c.isDigit = true := hmemchar c (hcr ▸ List.mem_cons_self c rest)
    have hcneg : ¬ c = '-' := by
      intro hc
      subst hc
      exact absurd hcdig (by decide)
    have hall : (c :: rest).all Char.isDigit = true := by
      rw [← hcr]
      exact List.all_eq_true.mpr hmemchar
    unfold strToInt?
    rw [hdata, hcr]
    simp only [if_neg hcneg, if_pos hall]
    rw [← hcr, digitsToNat_rev_digits (Nat.digits 10 n) hlt, Nat.ofDigits_digits]
    rfl

end DS389

namespace DS389

/-! ## Claim C1: dictionary and list plumbing -/

theorem dget?_eq_none_of_dmem_false {K V : Type} [DecidableEq K] (d : PyDict K V) (k : K)
    (h : dmem d k = false) : dget? d k = none := by
  unfold dmem at h
  cases hd : dget? d k with
  | none => rfl
  | some v => rw [hd] at h; simp at h

theorem dmem_eq_false_of_dget?_none {K V : Type} [DecidableEq K] (d : PyDict K V) (k : K)
    (h : dget? d k = none) : dmem d k = false := by
  unfold dmem
  rw [h]
  rfl

theorem dget?_cons_eq {K V : Type} [DecidableEq K] (k' k : K) (v : V) (rest : PyDict K V)
    (h : k' = k) : dget? ((k', v) :: rest) k = some v := by
  unfold dget?
  rw [if_pos h]

theorem dget?_cons_ne {K V : Type} [DecidableEq K] (k' k : K) (v : V) (rest : PyDict K V)
    (h : ¬ k' = k) : dget? ((k', v) :: rest) k = dget? rest k := by
  conv_lhs => unfold dget?
  rw [if_neg h]

theorem dget?_append {K V : Type} [DecidableEq K] (d₁ d₂ : PyDict K V) (k : K)
    (h : dget? d₁ k = none) : dget? (d₁ ++ d₂) k = dget? d₂ k := by
  induction d₁ with
  | nil => simp
  | cons p rest ih =>
      obtain ⟨k', v'⟩ := p
      by_cases hk : k' = k
      · rw [dget?_cons_eq k' k v' rest hk] at h
        exact absurd h (by simp)
      · rw [dget?_cons_ne k' k v' rest hk] at h
        rw [List.cons_append, dget?_cons_ne k' k v' (rest ++ d₂) hk]
        exact ih h

theorem dset_absent {K V : Type} [DecidableEq K] (d : PyDict K V) (k : K) (v : V)
    (h : dget? d k = none) : dset d k v = d ++ [(k, v)] := by
  induction d with
  | nil => rfl
  | cons p rest ih =>
      obtain ⟨k', v'⟩ := p
      unfold dget? at h
      by_cases hk : k' = k
      · rw [if_pos hk] at h; exact absurd h (by simp)
      · rw [if_neg hk] at h
        unfold dset
        rw [if_neg hk, ih h]
        rfl

theorem dset_append_last {K V : Type} [DecidableEq K] (d : PyDict K V) (k : K) (w v : V)
    (h : dget? d k = none) : dset (d ++ [(k, w)]) k v = d ++ [(k, v)] := by
  induction d with
  | nil => simp [dset]
  | cons p rest ih =>
      obtain ⟨k', v'⟩ := p
      unfold dget? at h
      by_cases hk : k' = k
      · rw [if_pos hk] at h; exact absurd h (by simp)
      · rw [if_neg hk] at h
        rw [List.cons_append]
        show dset ((k', v') :: (rest ++ [(k, w)])) k v = (k', v') :: (rest ++ [(k, v)])
        unfold dset
        rw [if_neg hk, ih h]

theorem list_set_get?_eq {α : Type} : ∀ (l : List α) (i : Nat) (a : α),
    l.get? i = some a → l.set i a = l := by
  intro l
  induction l with
  | nil => intro i a h; simp at h
  | cons x xs ih =>
      intro i a h
      cases i with
      | zero =>
          simp only [List.get?_cons_zero] at h
          injection h with h
          subst h
          rfl
      | succ i =>
          simp only [List.get?_cons_succ] at h
          simp [List.set, ih i a h]

theorem list_get?_set_self {α : Type} : ∀ (l : List α) (i : Nat) (a : α),
    i < l.length → (l.set i a).get? i = some a := by
  intro l
  induction l with
  | nil => intro i a h; simp at h
  | cons x xs ih =>
      intro i a h
      cases i with
      | zero => rfl
      | succ i =>
          simp only [List.length_cons, Nat.succ_lt_succ_iff] at h
          have := ih i a h
          simpa [List.set] using this

theorem list_set_append_cons {α : Type} (pre : List α) (x z : α) (rest : List α) :
    (pre ++ x :: rest).set pre.length z = pre ++ z :: rest := by
  induction pre with
  | nil => rfl
  | cons p ps ih => simp [List.set, ih]

theorem list_get?_append_cons {α : Type} (pre : List α) (x : α) (rest : List α) :
    (pre ++ x :: rest).get? pre.length = some x := by
  induction pre with
  | nil => rfl
  | cons p ps ih => simpa using ih

/-! ## Claim C1: the `min` scan with constant keys -/

theorem pyMinGo_const {α : Type} (key : α → Except PyErr PyDateTime) (k : PyDateTime)
    (best : α) (xs : List α) (hxs : ∀ x ∈ xs, key x = Except.ok k) :
    pyMinGo key best k xs = Except.ok best := by
  induction xs generalizing best with
  | nil => rfl
  | cons x xs ih =>
      unfold pyMinGo
      rw [hxs x (List.mem_cons_self _ _)]
      unfold dtLt
      simp only [if_pos rfl, bind, Except.bind, lt_irrefl, decide_False]
      exact ih best (fun y hy => hxs y (List.mem_cons_of_mem _ hy))

theorem pyMinBy_const {α : Type} (key : α → Except PyErr PyDateTime) (k : PyDateTime)
    (x : α) (xs : List α) (hx : key x = Except.ok k)
    (hxs : ∀ y ∈ xs, key y = Except.ok k) :
    pyMinBy key (x :: xs) = Except.ok x := by
  unfold pyMinBy
  simp only [bind, Except.bind, hx]
  exact pyMinGo_const key k x xs hxs

end DS389

namespace DS389

/-! ## Claim C1: the merge loop on fresh, single-entry change ids -/

theorem dget?_eq_none_of_not_mem_keys {K V : Type} [DecidableEq K]
    (d : PyDict K V) (k : K) (h : k ∉ d.map (fun p => p.1)) : dget? d k = none := by
  induction d with
  | nil => rfl
  | cons p rest ih =>
      obtain ⟨k', v'⟩ := p
      simp only [List.map_cons, List.mem_cons, not_or] at h
      rw [dget?_cons_ne k' k v' rest (fun he => h.1 he.symm)]
      exact ih h.2

theorem mergeLagOne_fresh {E : Type} (idx : Nat) (acc : PyDict String (PyDict String E))
    (c : String) (e : E) (hfresh : dget? acc c = none) :
    mergeLagOne idx acc (c, [("0", e)]) = acc ++ [(c, [(natToStr idx, e)])] := by
  unfold mergeLagOne
  have hmem : dmem acc c = false := dmem_eq_false_of_dget?_none _ _ hfresh
  simp only [hmem, Bool.false_eq_true, if_false, List.foldl_cons, List.foldl_nil]
  rw [dset_absent acc c [] hfresh,
    dget?_append acc [(c, [])] c hfresh,
    dget?_cons_eq c c ([] : PyDict String E) ([] : PyDict String (PyDict String E)) rfl]
  simp only [Option.getD_some]
  exact dset_append_last acc c [] [(natToStr idx, e)] hfresh

theorem mergeLag_doc {E : Type} (idx : Nat) :
    ∀ (lag : PyDict String (PyDict String E)) (acc : PyDict String (PyDict String E)),
    (∀ p ∈ lag, ∃ e : E, p.2 = [("0", e)]) →
    (∀ p ∈ lag, dget? acc p.1 = none) →
    (lag.map (fun p => p.1)).Nodup →
    lag.foldl (mergeLagOne idx) acc
      = acc ++ lag.map (fun p => (p.1, p.2.map (fun q => (natToStr idx, q.2)))) := by
  intro lag
  induction lag with
  | nil => intro acc _ _ _; simp
  | cons p ps ih =>
      intro acc hsingle hfresh hnodup
      obtain ⟨c, pv⟩ := p
      obtain ⟨e, he⟩ := hsingle (c, pv) (List.mem_cons_self _ _)
      simp only at he
      subst he
      rw [List.foldl_cons,
        mergeLagOne_fresh idx acc c e (hfresh _ (List.mem_cons_self _ _))]
      rw [List.map_cons, List.nodup_cons] at hnodup
      rw [ih (acc ++ [(c, [(natToStr idx, e)])])
        (fun q hq => hsingle q (List.mem_cons_of_mem _ hq))
        ?_ hnodup.2]
      · simp
      · intro q hq
        have hne : ¬ c = q.1 := by
          intro hc
          exact hnodup.1 (hc ▸ List.mem_map.mpr ⟨q, hq, rfl⟩)
        rw [dget?_append acc _ q.1 (hfresh q (List.mem_cons_of_mem _ hq)),
          dget?_cons_ne c q.1 _ ([] : PyDict String (PyDict String E)) hne]
        rfl

theorem mergeLag_docs {E : Type} :
    ∀ (l : List (Doc E)) (i : Nat) (acc : PyDict String (PyDict String E)),
    (∀ d ∈ l, ∀ p ∈ d.lag, ∃ e : E, p.2 = [("0", e)]) →
    ((acc.map (fun p => p.1)) ++ (l.map lagKeys).join).Nodup →
    (List.enumFrom i l).foldl (fun a p => p.2.lag.foldl (mergeLagOne p.1) a) acc
      = acc ++ ((List.enumFrom i l).map (fun p =>
          p.2.lag.map (fun q => (q.1, q.2.map (fun r => (natToStr p.1, r.2)))))).join := by
  intro l
  induction l with
  | nil => intro i acc _ _; simp
  | cons d ds ih =>
      intro i acc hsingle hnodup
      have hstep : List.enumFrom i (d :: ds) = (i, d) :: List.enumFrom (i + 1) ds := rfl
      rw [hstep, List.foldl_cons]
      have hnodup2 : (acc.map (fun p => p.1) ++ (d.lag.map (fun p => p.1)
          ++ (ds.map lagKeys).join)).Nodup := by
        simpa [lagKeys] using hnodup
      have hnodup3 := hnodup2
      rw [← List.append_assoc] at hnodup3
      have hsplit := List.nodup_append.mp hnodup3
      have hsplit2 := List.nodup_append.mp hsplit.1
      have hdk : (d.lag.map (fun p => p.1)).Nodup := hsplit2.2.1
      have hadisj : (acc.map (fun p => p.1)).Disjoint (d.lag.map (fun p => p.1)) :=
        hsplit2.2.2
      have hd1 : (i, d).2.lag.foldl (mergeLagOne (i, d).1) acc
          = acc ++ d.lag.map (fun p => (p.1, p.2.map (fun q => (natToStr i, q.2)))) := by
        exact mergeLag_doc i d.lag acc (hsingle d (List.mem_cons_self _ _))
          (fun p hp => dget?_eq_none_of_not_mem_keys acc p.1
            (fun hmem => hadisj hmem (List.mem_map.mpr ⟨p, hp, rfl⟩))) hdk
      rw [hd1]
      rw [ih (i + 1) _ (fun d' hd' => hsingle d' (List.mem_cons_of_mem _ hd')) ?_]
      · simp [List.append_assoc]
      · have hkeys : ((acc ++ d.lag.map (fun p =>
            (p.1, p.2.map (fun q => (natToStr i, q.2))))).map (fun p => p.1))
            = (acc.map (fun p => p.1)) ++ d.lag.map (fun p => p.1) := by
          simp
        rw [hkeys, List.append_assoc]
        exact hnodup2

end DS389

namespace DS389

/-! ## Claim C1: the split loop on merged single-replica blocks -/

theorem splitStep_one {E : Type} (i : Nat) (c : String) (e : E)
    (outs : List (Doc E)) (target : Doc E)
    (hget : outs.get? i = some target) :
    splitStep outs (c, [(natToStr i, e)]) =
      Except.ok (outs.set i { target with lag := dset target.lag c [("0", e)] }) := by
  have hlen : i < outs.length := by
    by_contra hx
    push_neg at hx
    rw [List.get?_eq_none.mpr hx] at hget
    exact absurd hget (by simp)
  have hcond : 0 ≤ (Int.ofNat i) ∧ (Int.ofNat i) < ((outs.length : Nat) : Int) := by
    constructor
    · exact Int.ofNat_nonneg i
    · exact Int.ofNat_lt.mpr hlen
  have hget2 : outs[i]? = some target := by
    rw [← List.get?_eq_getElem?]
    exact hget
  unfold splitStep
  simp only [bind, Except.bind, pure, Except.pure, strToInt?_natToStr]
  unfold pyNormIdx
  rw [if_pos hcond]
  simp [intToStr, dget?, hget, hget2]

theorem splitStep_block {E : Type} (i : Nat) :
    ∀ (lag : PyDict String (PyDict String E)) (outs : List (Doc E)) (target : Doc E),
    outs.get? i = some target →
    (∀ p ∈ lag, ∃ e : E, p.2 = [("0", e)]) →
    (∀ p ∈ lag, dget? target.lag p.1 = none) →
    (lag.map (fun p => p.1)).Nodup →
    List.foldlM splitStep outs
        (lag.map (fun q => (q.1, q.2.map (fun r => (natToStr i, r.2)))))
      = Except.ok (outs.set i { target with lag := target.lag ++ lag }) := by
  intro lag
  induction lag with
  | nil =>
      intro outs target hget _ _ _
      have : ({ target with lag := target.lag ++ [] } : Doc E) = target := by
        cases target
        simp
      rw [List.map_nil]
      rw [this, list_set_get?_eq outs i target hget]
      rfl
  | cons q qs ih =>
      intro outs target hget hsingle hfresh hnodup
      obtain ⟨c, qv⟩ := q
      obtain ⟨e, he⟩ := hsingle (c, qv) (List.mem_cons_self _ _)
      simp only at he
      subst he
      have hfc : dget? target.lag c = none := hfresh _ (List.mem_cons_self _ _)
      rw [List.map_cons, List.foldlM_cons]
      simp only [List.map_cons, List.map_nil]
      rw [splitStep_one i c e outs target hget]
      simp only [bind, Except.bind]
      rw [List.map_cons, List.nodup_cons] at hnodup
      rw [ih (outs.set i { target with lag := dset target.lag c [("0", e)] })
        { target with lag := dset target.lag c [("0", e)] }
        (list_get?_set_self outs i _ (by
          by_contra hx
          push_neg at hx
          rw [List.get?_eq_none.mpr hx] at hget
          exact absurd hget (by simp)))
        (fun p hp => hsingle p (List.mem_cons_of_mem _ hp))
        ?_ hnodup.2]
      · rw [List.set_set]
        have heq2 : ({ target with lag := dset target.lag c [("0", e)] } : Doc E).lag
            ++ qs = target.lag ++ (c, [("0", e)]) :: qs := by
          simp only [dset_absent _ _ _ hfc]
          rw [List.append_assoc]
          rfl
        rw [heq2]
      · intro p hp
        have hne : ¬ c = p.1 := by
          intro hc
          exact hnodup.1 (hc ▸ List.mem_map.mpr ⟨p, hp, rfl⟩)
        simp only [dset_absent _ _ _ hfc]
        rw [dget?_append _ _ _ (hfresh p (List.mem_cons_of_mem _ hp)),
          dget?_cons_ne c p.1 _ ([] : PyDict String (PyDict String E)) hne]
        rfl

theorem splitFold_docs {E : Type} :
    ∀ (ds : List (Doc E)) (pre : List (Doc E)),
    (∀ d ∈ ds, ∀ p ∈ d.lag, ∃ e : E, p.2 = [("0", e)]) →
    (∀ d ∈ ds, (d.lag.map (fun p => p.1)).Nodup) →
    List.foldlM splitStep (pre ++ ds.map (fun d => { d with lag := [] }))
        (((List.enumFrom pre.length ds).map (fun p =>
          p.2.lag.map (fun q => (q.1, q.2.map (fun r => (natToStr p.1, r.2)))))).join)
      = Except.ok (pre ++ ds) := by
  intro ds
  induction ds with
  | nil =>
      intro pre _ _
      simp
      rfl
  | cons d rest ih =>
      intro pre hsingle hnodup
      have hform : (List.map (fun p =>
            List.map (fun q => (q.1, List.map (fun r => (natToStr p.1, r.2)) q.2)) p.2.lag)
            (List.enumFrom pre.length (d :: rest))).join
          = List.map (fun q => (q.1, List.map (fun r => (natToStr pre.length, r.2)) q.2)) d.lag
            ++ (List.map (fun p =>
              List.map (fun q => (q.1, List.map (fun r => (natToStr p.1, r.2)) q.2)) p.2.lag)
              (List.enumFrom (pre.length + 1) rest)).join := rfl
      have hbase : pre ++ (d :: rest).map (fun d => ({ d with lag := [] } : Doc E))
          = pre ++ ({ d with lag := [] } : Doc E) ::
            rest.map (fun d => ({ d with lag := [] } : Doc E)) := rfl
      rw [hform, hbase, List.foldlM_append]
      have hget : (pre ++ ({ d with lag := [] } : Doc E) :: rest.map
          (fun d => ({ d with lag := [] } : Doc E))).get? pre.length
          = some ({ d with lag := [] } : Doc E) :=
        list_get?_append_cons pre _ _
      rw [splitStep_block pre.length d.lag
        (pre ++ ({ d with lag := [] } : Doc E) :: rest.map (fun d => ({ d with lag := [] } : Doc E)))
        ({ d with lag := [] } : Doc E) hget (hsingle d (List.mem_cons_self _ _))
        (fun p _ => rfl) (hnodup d (List.mem_cons_self _ _))]
      simp only [bind, Except.bind]
      have hset : (pre ++ ({ d with lag := [] } : Doc E) :: rest.map
            (fun d => ({ d with lag := [] } : Doc E))).set pre.length
            { ({ d with lag := [] } : Doc E) with lag :=
              ({ d with lag := [] } : Doc E).lag ++ d.lag }
          = pre ++ d :: rest.map (fun d => ({ d with lag := [] } : Doc E)) := by
        have h1 : ({ ({ d with lag := [] } : Doc E) with lag :=
            ({ d with lag := [] } : Doc E).lag ++ d.lag } : Doc E) = d := by
          cases d
          simp
        rw [h1]
        exact list_set_append_cons pre _ d _
      rw [hset]
      have hih := ih (pre ++ [d]) (fun d' hd' => hsingle d' (List.mem_cons_of_mem _ hd'))
        (fun d' hd' => hnodup d' (List.mem_cons_of_mem _ hd'))
      simpa [List.append_assoc] using hih

end DS389

namespace DS389

/-! ## Claim C1: assembly -/

theorem foldl_append_logFiles {E : Type} :
    ∀ (l : List (Doc E)) (acc : List String),
    l.foldl (fun a d => a ++ d.logFiles) acc
      = acc ++ (l.map (fun d => d.logFiles)).join := by
  intro l
  induction l with
  | nil => intro acc; simp
  | cons d ds ih =>
      intro acc
      rw [List.foldl_cons, ih]
      simp [List.append_assoc]

theorem split_base_eq {E : Type} (st : String) (u o : Rat) :
    ∀ (l : List (Doc E)),
    (∀ d ∈ l, d.startTime = st ∧ d.utcStartTime = u ∧ d.utcOffset = o) →
    (∀ d ∈ l, ∃ f, d.logFiles = [f]) →
    ((l.map (fun d => d.logFiles)).join).map (fun f =>
        ({ startTime := st, utcStartTime := u, utcOffset := o,
           logFiles := [f], lag := [] } : Doc E))
      = l.map (fun d => { d with lag := [] }) := by
  intro l
  induction l with
  | nil => intro _ _; rfl
  | cons d ds ih =>
      intro hcommon hlog
      obtain ⟨f, hf⟩ := hlog d (List.mem_cons_self _ _)
      obtain ⟨h1, h2, h3⟩ := hcommon d (List.mem_cons_self _ _)
      have hrec := ih (fun d' hd' => hcommon d' (List.mem_cons_of_mem _ hd'))
        (fun d' hd' => hlog d' (List.mem_cons_of_mem _ hd'))
      simp only [List.map_cons, hf]
      have hjoin : (([f] : List String) :: ds.map (fun d => d.logFiles)).join
          = f :: (ds.map (fun d => d.logFiles)).join := rfl
      rw [hjoin, List.map_cons, hrec]
      have hd : (⟨st, u, o, [f], []⟩ : Doc E) = ({ d with lag := [] } : Doc E) := by
        cases d
        simp only at h1 h2 h3 hf
        simp [h1, h2, h3, hf]
      rw [hd]
      rw [hf]

/-- C1 (amended): for per-replica result documents that share identical
earliest-instant common fields, each carry exactly one log file, key every
lag entry by the single local index `"0"`, and have globally distinct
change ids, `split_json` after `merge_jsons` reproduces the input list
exactly.  Without those provisos the round trip fails: the counterexample
shows `split_json` stamping every output with the *merged* (earliest)
common fields, so an input whose start time differs is not reproduced; a
change id shared by several inputs would likewise be handed only to the
first input's output. -/
theorem claim_C1_split_merge_roundtrip {E : Type} [DecidableEq E]
    (l : List (Doc E)) (hne : l ≠ [])
    (st : String) (u o : Rat) (k : PyDateTime)
    (hk : fromisoformat st = Except.ok k)
    (hcommon : ∀ d ∈ l, d.startTime = st ∧ d.utcStartTime = u ∧ d.utcOffset = o)
    (hrep : ∀ d ∈ l, perReplicaDoc d)
    (hnodup : ((l.map lagKeys).join).Nodup) :
    ∃ m, merge_jsons l = Except.ok m ∧ split_json m = Except.ok l := by
  cases l with
  | nil => exact absurd rfl hne
  | cons d ds =>
      have hmin : pyMinBy (fun d : Doc E => fromisoformat d.startTime) (d :: ds)
          = Except.ok d := by
        apply pyMinBy_const _ k
        · rw [(hcommon d (List.mem_cons_self _ _)).1]
          exact hk
        · intro y hy
          rw [(hcommon y (List.mem_cons_of_mem _ hy)).1]
          exact hk
      have hsingle : ∀ d' ∈ d :: ds, ∀ p ∈ d'.lag, ∃ e : E, p.2 = [("0", e)] :=
        fun d' hd' => (hrep d' hd').2
      have hlog : ∀ d' ∈ d :: ds, ∃ f, d'.logFiles = [f] :=
        fun d' hd' => (hrep d' hd').1
      have hlagkeys : ∀ d' ∈ d :: ds, (d'.lag.map (fun p => p.1)).Nodup := by
        intro d' hd'
        have hsub : (lagKeys d').Sublist (((d :: ds).map lagKeys).join) :=
          List.sublist_join_of_mem (List.mem_map.mpr ⟨d', hd', rfl⟩)
        exact (hnodup.sublist hsub)
      have hmergeLag : mergeLag (d :: ds)
          = ((List.enumFrom 0 (d :: ds)).map (fun p =>
              p.2.lag.map (fun q => (q.1, q.2.map (fun r => (natToStr p.1, r.2)))))).join := by
        unfold mergeLag
        have henum : (d :: ds).enum = List.enumFrom 0 (d :: ds) := rfl
        rw [henum]
        have := mergeLag_docs (d :: ds) 0 [] hsingle (by simpa using hnodup)
        simpa using this
      have hmerge : merge_jsons (d :: ds) = Except.ok
          { d with
            logFiles := ((d :: ds).map (fun d => d.logFiles)).join,
            lag := ((List.enumFrom 0 (d :: ds)).map (fun p =>
              p.2.lag.map (fun q => (q.1, q.2.map (fun r => (natToStr p.1, r.2)))))).join } := by
        unfold merge_jsons
        simp only [bind, Except.bind, hmin]
        rw [foldl_append_logFiles (d :: ds) [], hmergeLag]
        simp
      refine ⟨_, hmerge, ?_⟩
      unfold split_json
      simp only
      obtain ⟨h1, h2, h3⟩ := hcommon d (List.mem_cons_self _ _)
      have hbase : (((d :: ds).map (fun d => d.logFiles)).join).map (fun f =>
          ({ startTime := d.startTime, utcStartTime := d.utcStartTime,
             utcOffset := d.utcOffset, logFiles := [f], lag := [] } : Doc E))
          = (d :: ds).map (fun d' => { d' with lag := [] }) := by
        rw [h1, h2, h3]
        exact split_base_eq st u o (d :: ds) hcommon hlog
      rw [hbase]
      have hfold := splitFold_docs (d :: ds) ([] : List (Doc E)) hsingle hlagkeys
      simpa using hfold

end DS389

namespace DS389

/-- Counterexample to C1 as stated: two per-replica documents with
distinct start times (each using local index "0" and disjoint change
ids).  `split_json (merge_jsons ...)` stamps both outputs with the merged
document's common fields, so the second output carries the first
document's start time instead of its own — the inputs are not reproduced,
not even up to key ordering. -/
theorem claim_C1_split_merge_counterexample :
    (match merge_jsons
        ([⟨"2024-01-01 00:00:00+00:00", 0, 0, ["a"], [("c1", [("0", 1)])]⟩,
          ⟨"2024-01-02 00:00:00+00:00", 1, 0, ["b"], [("c2", [("0", 2)])]⟩] :
          List (Doc Nat)) with
      | Except.ok m => (split_json m).map (fun outs => outs.map (fun d => d.startTime))
      | Except.error e => Except.error e)
      = Except.ok ["2024-01-01 00:00:00+00:00", "2024-01-01 00:00:00+00:00"] ∧
    ("2024-01-01 00:00:00+00:00" : String) ≠ "2024-01-02 00:00:00+00:00" :=
  ⟨by rfl, by decide⟩

/-- Witness for the amended C1 theorem: two documents sharing common
fields, one log file each, local index "0" entries, and disjoint change
ids round-trip exactly. -/
theorem claim_C1_split_merge_roundtrip_witness :
    ∃ m, merge_jsons
        ([⟨"2024-01-01 00:00:00+00:00", 0, 0, ["a"], [("c1", [("0", 1)])]⟩,
          ⟨"2024-01-01 00:00:00+00:00", 0, 0, ["b"], [("c2", [("0", 2)])]⟩] :
          List (Doc Nat)) = Except.ok m ∧
      split_json m = Except.ok
        ([⟨"2024-01-01 00:00:00+00:00", 0, 0, ["a"], [("c1", [("0", 1)])]⟩,
          ⟨"2024-01-01 00:00:00+00:00", 0, 0, ["b"], [("c2", [("0", 2)])]⟩] :
          List (Doc Nat)) :=
  claim_C1_split_merge_roundtrip
    ([⟨"2024-01-01 00:00:00+00:00", 0, 0, ["a"], [("c1", [("0", 1)])]⟩,
      ⟨"2024-01-01 00:00:00+00:00", 0, 0, ["b"], [("c2", [("0", 2)])]⟩] :
      List (Doc Nat))
    (by decide) "2024-01-01 00:00:00+00:00" 0 0 ⟨2024, 1, 1, 0, 0, 0, 0, true, 0⟩
    (by rfl)
    (by
      intro d' hd'
      rcases List.mem_cons.mp hd' with h | h
      · subst h
        exact ⟨rfl, rfl, rfl⟩
      · rcases List.mem_cons.mp h with h2 | h2
        · subst h2
          exact ⟨rfl, rfl, rfl⟩
        · simp at h2)
    (by
      intro d' hd'
      rcases List.mem_cons.mp hd' with h | h
      · subst h
        refine ⟨⟨"a", rfl⟩, ?_⟩
        intro p hp
        rcases List.mem_cons.mp hp with h2 | h2
        · subst h2
          exact ⟨1, rfl⟩
        · simp at h2
      · rcases List.mem_cons.mp h with h2 | h2
        · subst h2
          refine ⟨⟨"b", rfl⟩, ?_⟩
          intro p hp
          rcases List.mem_cons.mp hp with h3 | h3
          · subst h3
            exact ⟨2, rfl⟩
          · simp at h3
        · simp at h2)
    (by decide)

end DS389
